import Mathlib

/-! Sealer image build kit: a shallow embedding.

Embedding of the build pipeline of `build/buildkit/buildimage/build_image.go`,
the helpers of `build/buildkit/buildinstruction/utils.go` and the blob service
of `image/blob.go`, with the properties of the specification stated over it.

Go strings are byte sequences; paths are modelled as `String` and processed
as `List Char`, one `Char` per byte.
-/

namespace Sealer

/-! ## Go `path/filepath` on Unix (library code used by the helpers) -/

/-- Go `os.IsPathSeparator` on Unix: the only separator is the slash. -/
def isPathSeparator (c : Char) : Bool := c == '/'

/-- Loop test of `filepath.Clean` at a read index `r`: `r == n || os.IsPathSeparator(path[r])`,
where the argument is `path[r:]`. -/
def elemEnd : List Char → Bool
  | [] => true
  | c :: _ => isPathSeparator c

/-- Loop state of `filepath.Clean`: `out` is the written buffer `buf[0:w]`
(so `w = out.length`) and `dotdot` the index where `..` must stop. -/
structure CleanState where
  out : List Char
  dotdot : Nat
  deriving DecidableEq, Repr

/-- Inner loop of the `..` case of `filepath.Clean`:
`for out.w > dotdot && !os.IsPathSeparator(out.index(out.w)) { out.w-- }`,
as a function of the current `w`; returns the final `w`. -/
def backtrackTo (out : List Char) (dotdot : Nat) : Nat → Nat
  | 0 => 0
  | w + 1 =>
    if dotdot < w + 1 && !isPathSeparator (out.getD (w + 1) '/') then backtrackTo out dotdot w
    else w + 1

/-- The `..` case of `filepath.Clean`: backtrack when `out.w > dotdot`, otherwise
append a `..` element when the path is not rooted, otherwise do nothing. -/
def dotdotStep (rooted : Bool) (st : CleanState) : CleanState :=
  if st.dotdot < st.out.length then
    { st with out := st.out.take (backtrackTo st.out st.dotdot (st.out.length - 1)) }
  else if !rooted then
    let out1 := if 0 < st.out.length then st.out ++ ['/'] else st.out
    { out := out1 ++ ['.', '.'], dotdot := (out1 ++ ['.', '.']).length }
  else st

/-- The default case of `filepath.Clean`: add a slash if needed, then copy the
element `path[r:]` up to the next separator. -/
def elemStep (rooted : Bool) (rest : List Char) (st : CleanState) : CleanState :=
  let out1 :=
    if (rooted && st.out.length != 1) || (!rooted && st.out.length != 0) then st.out ++ ['/']
    else st.out
  { st with out := out1 ++ rest.takeWhile (fun c => !isPathSeparator c) }

/-- Main loop `for r < n` of `filepath.Clean`, on the unread input `path[r:]`.
Each iteration consumes at least one byte, so `fuel = n` iterations suffice. -/
def cleanLoop (rooted : Bool) : Nat → List Char → CleanState → CleanState
  | 0, _, st => st
  | _ + 1, [], st => st
  | fuel + 1, c :: t, st =>
    if isPathSeparator c then
      -- empty path element
      cleanLoop rooted fuel t st
    else if c == '.' && elemEnd t then
      -- . element
      cleanLoop rooted fuel t st
    else if c == '.' && t.head? == some '.' && elemEnd t.tail then
      -- .. element: remove to last separator
      cleanLoop rooted fuel t.tail (dotdotStep rooted st)
    else
      -- real path element
      cleanLoop rooted fuel ((c :: t).dropWhile (fun c => !isPathSeparator c))
        (elemStep rooted (c :: t) st)

/-- Go `filepath.Clean` on Unix (no volume name), on bytes. -/
def cleanChars (path : List Char) : List Char :=
  match path with
  | [] => ['.']
  | c :: t =>
    let rooted := isPathSeparator c
    let st :=
      if rooted then cleanLoop rooted path.length t { out := ['/'], dotdot := 1 }
      else cleanLoop rooted path.length (c :: t) { out := [], dotdot := 0 }
    -- Turn empty string into "."
    if st.out.length == 0 then ['.'] else st.out

/-- Go `filepath.Clean`. -/
def Clean (path : String) : String := String.mk (cleanChars path.data)

/-- Go `filepath.Join` on Unix: the elements from the first non-empty one on are
joined with the separator and the result is cleaned; all empty gives `""`. -/
def Join : List String → String
  | [] => ""
  | e :: es => if e ≠ "" then Clean ("/".intercalate (e :: es)) else Join es

/-! ## `buildinstruction/utils.go` -/

/-- `paresCopyDestPath(rawDstFileName, tempBuildDir)`. -/
def paresCopyDestPath (rawDstFileName tempBuildDir : String) : String :=
  let dst := rawDstFileName
  if dst = "." || dst = "./" || dst = "/" || dst = "/." then tempBuildDir
  else Join [tempBuildDir, dst]

/-- Go `filepath.Base` on Unix: the last element of the path, trailing slashes
removed first; `"."` for the empty path and `"/"` for a path of slashes only. -/
def Base (path : String) : String :=
  if path = "" then "."
  else
    -- Strip trailing slashes.
    let stripped := (path.data.reverse.dropWhile isPathSeparator).reverse
    -- Find the last element
    let last := (stripped.reverse.takeWhile (fun c => !isPathSeparator c)).reverse
    -- If empty now, it had only slashes.
    if last = [] then "/" else String.mk last

/-- Clean loop from an element boundary with exactly as much fuel as input. -/
def run (rooted : Bool) (rest : List Char) (st : CleanState) : CleanState :=
  cleanLoop rooted rest.length rest st

/-- Last step of `filepath.Clean`: the empty buffer becomes `"."`. -/
def finish (st : CleanState) : List Char :=
  if st.out.length == 0 then ['.'] else st.out

/-- A clean absolute path: `filepath.IsAbs` holds (leading slash) and
`filepath.Clean` leaves the path as it is. -/
def IsCleanAbs (R : String) : Prop := R.data.head? = some '/' ∧ Clean R = R

instance (R : String) : Decidable (IsCleanAbs R) := by unfold IsCleanAbs; infer_instance

/-- The path written `R/rel` in the specification: `rel` below the directory `R`.
Below the root directory `"/"` this is `"/rel"`, elsewhere `R`, a slash and `rel`. -/
def beneath (R rel : String) : String :=
  if R = "/" then "/" ++ rel else R ++ "/" ++ rel

/-! ## Data model -/

/-- Go `error` values, identified with their message. -/
abbrev GoError := String

/-- Go `digest.Digest`, a string type; the empty string is the zero value. -/
abbrev Digest := String

/-- Go `cache.ChainID`, a string type. -/
abbrev ChainID := String

/-- How a Go call ends other than by returning normally: with a returned error
or with a run-time panic (index out of range). -/
inductive Fault where
  | error (err : GoError)
  | panic (msg : String)
  deriving DecidableEq, Repr

/-- The constants of package `common` that the build kit reads. -/
structure Common where
  LiteBuild : String
  CMDCOMMAND : String
  ImageScratch : String
  BaseImageLayerType : String
  RootfsLayerValue : String
  DefaultLayerDir : String

/-- Go `v1.Layer`; the field `Type` is written `Type_`. -/
structure Layer where
  ID : Digest
  Type_ : String
  Value : String
  deriving DecidableEq, Repr

/-- Go `v1.ImageSpec`, the fields the build kit touches. -/
structure ImageSpec where
  ID : String
  Layers : List Layer
  deriving DecidableEq, Repr

/-- Go `v1.Image`, the fields the build kit touches. -/
structure Image where
  Name : String
  Spec : ImageSpec
  Annotations : List (String × String)
  deriving DecidableEq, Repr

/-- Go `buildinstruction.MountTarget`: the overlay mount of a layer stack. -/
structure MountTarget where
  TempTarget : String
  TempUpper : String
  LowLayers : List String
  deriving DecidableEq, Repr

/-- The method `MountTarget.GetMountUpper`. -/
def MountTarget.GetMountUpper (m : MountTarget) : String := m.TempUpper

/-- Go `BuildImage`. The image store, layer store and image service are
interface values: their methods are parameters of the operations calling them. -/
structure BuildImage where
  BuildType : String
  RawImage : Image
  BaseLayers : List Layer
  NewLayers : List Layer
  RootfsMountInfo : MountTarget
  deriving DecidableEq, Repr

/-- The constant `maxLayerDeep`. -/
def maxLayerDeep : Nat := 128

/-! ## `NewBuildImage` -/

/-- Collaborators called by `NewBuildImage`, with the result each call gives. -/
structure BuildEnv where
  InitImageSpec : String → Except GoError Image
  NewDefaultLayerStore : Except GoError Unit
  NewDefaultImageStore : Except GoError Unit
  NewImageService : Except GoError Unit
  PullIfNotExist : String → Option GoError
  GetByName : String → Except GoError Image
  GetLayerMountInfo : List Layer → String → Except GoError MountTarget

/-- Calls of `NewBuildImage` on its collaborators that touch images or mounts. -/
inductive BuildCall where
  | PullIfNotExist (name : String)
  | GetByName (name : String)
  | GetLayerMountInfo (layers : List Layer) (buildType : String)
  deriving DecidableEq, Repr

/-- Whether a logged call is the mount step `GetLayerMountInfo`. -/
def BuildCall.isMount : BuildCall → Bool
  | .GetLayerMountInfo _ _ => true
  | _ => false

/-- Base image resolution inside `NewBuildImage`: the empty image for the scratch
sentinel, otherwise pull and look the image up by name. -/
def resolveBaseImage (env : BuildEnv) (common : Common) (layer0 : Layer) :
    List BuildCall × Except Fault Image :=
  if layer0.Value = common.ImageScratch then
    -- give an empty image
    ([], .ok { Name := "", Spec := { ID := "", Layers := [] }, Annotations := [] })
  else
    match env.PullIfNotExist layer0.Value with
    | some err =>
      ([.PullIfNotExist layer0.Value], .error (.error ("failed to pull baseImage: " ++ err)))
    | none =>
      match env.GetByName layer0.Value with
      | .error err =>
        ([.PullIfNotExist layer0.Value, .GetByName layer0.Value],
          .error (.error ("failed to get base image err: " ++ err)))
      | .ok baseImage =>
        ([.PullIfNotExist layer0.Value, .GetByName layer0.Value], .ok baseImage)

/-- `NewBuildImage(kubefileName, buildType)`: the log of collaborator calls made
and the returned build image or fault. -/
def NewBuildImage (env : BuildEnv) (common : Common) (kubefileName buildType : String) :
    List BuildCall × Except Fault BuildImage :=
  match env.InitImageSpec kubefileName with
  | .error err => ([], .error (.error err))
  | .ok rawImage =>
  match env.NewDefaultLayerStore with
  | .error err => ([], .error (.error err))
  | .ok _ =>
  match env.NewDefaultImageStore with
  | .error err => ([], .error (.error err))
  | .ok _ =>
  match env.NewImageService with
  | .error err => ([], .error (.error err))
  | .ok _ =>
  match rawImage.Spec.Layers with
  | [] => ([], .error (.panic "index out of range [0] with length 0"))
  | layer0 :: rest =>
    -- and the layer 0 must be from layer
    match resolveBaseImage env common layer0 with
    | (calls, .error f) => (calls, .error f)
    | (calls, .ok baseImage) =>
      let baseLayers := [] ++ baseImage.Spec.Layers
      let newLayers := [] ++ rest
      if baseLayers.length + newLayers.length > maxLayerDeep then
        (calls, .error (.error "current number of layers exceeds 128 layers"))
      else
        match env.GetLayerMountInfo baseLayers buildType with
        | .error err =>
          (calls ++ [.GetLayerMountInfo baseLayers buildType], .error (.error err))
        | .ok mountInfo =>
          (calls ++ [.GetLayerMountInfo baseLayers buildType],
            .ok { BuildType := buildType, RawImage := rawImage, BaseLayers := baseLayers,
                  NewLayers := newLayers, RootfsMountInfo := mountInfo })

/-! ## `BuildImage.ExecBuild` -/

/-- Go `buildimage.Context`, the fields `ExecBuild` reads. -/
structure Context where
  BuildContext : String
  UseCache : Bool
  deriving DecidableEq, Repr

/-- Go `buildinstruction.ExecContext`, the data fields; the cache service,
prober and layer store it carries are interface values. -/
structure ExecContext where
  BuildContext : String
  BuildType : String
  ContinueCache : Bool
  ParentID : ChainID
  deriving DecidableEq, Repr

/-- Go `buildinstruction.InstructionContext`. `CurrentLayer` points at
`newLayers[i]`; it holds the layer as it is when the instruction is created. -/
structure InstructionContext where
  BaseLayers : List Layer
  CurrentLayer : Layer
  deriving DecidableEq, Repr

/-- Go `buildinstruction.Out`. -/
structure Out where
  LayerID : Digest
  ParentID : ChainID
  ContinueCache : Bool
  deriving DecidableEq, Repr

/-- An instruction is its method `Exec`: from the exec context to an output or an error. -/
abbrev Instruction := ExecContext → Except GoError Out

/-- Collaborators of `ExecBuild`: the two exec-context constructors (build type,
build context) and `NewInstruction`. -/
structure ExecEnv where
  NewExecContext : String → String → ExecContext
  NewExecContextWithoutCache : String → String → ExecContext
  NewInstruction : InstructionContext → Except GoError Instruction

/-- State of the loop of `ExecBuild` at index `i = done.length`: `done` is
`newLayers[0:i]` as updated so far; `created` logs the calls of `NewInstruction`,
`executed` the calls of `inst.Exec` and `outputs` the outputs of the calls of
`inst.Exec` that succeeded, each with the loop index. -/
structure ExecState where
  execCtx : ExecContext
  baseLayers : List Layer
  done : List Layer
  created : List (Nat × InstructionContext)
  executed : List (Nat × ExecContext)
  outputs : List (Nat × Out)
  deriving DecidableEq, Repr

/-- What `ExecBuild` leaves behind: the returned error, the slice `newLayers`
(updated in place), the local `baseLayers` and `execCtx`, and the call logs. -/
structure ExecResult where
  err : Option GoError
  newLayers : List Layer
  baseLayers : List Layer
  execCtx : ExecContext
  created : List (Nat × InstructionContext)
  executed : List (Nat × ExecContext)
  outputs : List (Nat × Out)
  deriving DecidableEq, Repr

/-- The loop `for i := 0; i < len(newLayers); i++` of `ExecBuild`, on the
remaining layers `newLayers[i:]`. -/
def execLoop (env : ExecEnv) (common : Common) (buildType : String) :
    List Layer → ExecState → ExecResult
  | [], st =>
    { err := none, newLayers := st.done, baseLayers := st.baseLayers, execCtx := st.execCtx,
      created := st.created, executed := st.executed, outputs := st.outputs }
  | layer :: rest, st =>
    if buildType = common.LiteBuild ∧ layer.Type_ = common.CMDCOMMAND then
      execLoop env common buildType rest { st with done := st.done ++ [layer] }
    else
      -- run layer instruction exec to get layer id and cache id
      let ic : InstructionContext := { BaseLayers := st.baseLayers, CurrentLayer := layer }
      let created := st.created ++ [(st.done.length, ic)]
      match env.NewInstruction ic with
      | .error err =>
        { err := some err, newLayers := st.done ++ layer :: rest, baseLayers := st.baseLayers,
          execCtx := st.execCtx, created := created, executed := st.executed,
          outputs := st.outputs }
      | .ok inst =>
        let executed := st.executed ++ [(st.done.length, st.execCtx)]
        match inst st.execCtx with
        | .error err =>
          { err := some err, newLayers := st.done ++ layer :: rest, baseLayers := st.baseLayers,
            execCtx := st.execCtx, created := created, executed := executed,
            outputs := st.outputs }
        | .ok out =>
          -- update current layer cache status for next cache
          let execCtx :=
            if st.execCtx.ContinueCache then
              { st.execCtx with ParentID := out.ParentID, ContinueCache := out.ContinueCache }
            else st.execCtx
          let outputs := st.outputs ++ [(st.done.length, out)]
          let layer1 : Layer := { layer with ID := out.LayerID }
          if out.LayerID = "" then
            execLoop env common buildType rest
              { execCtx := execCtx, baseLayers := st.baseLayers, done := st.done ++ [layer1],
                created := created, executed := executed, outputs := outputs }
          else
            execLoop env common buildType rest
              { execCtx := execCtx, baseLayers := st.baseLayers ++ [layer1],
                done := st.done ++ [layer1], created := created, executed := executed,
                outputs := outputs }

/-- The exec context `ExecBuild` starts from. -/
def initExecContext (env : ExecEnv) (b : BuildImage) (ctx : Context) : ExecContext :=
  if ctx.UseCache then env.NewExecContext b.BuildType ctx.BuildContext
  else env.NewExecContextWithoutCache b.BuildType ctx.BuildContext

/-- `BuildImage.ExecBuild(ctx)`. -/
def ExecBuild (env : ExecEnv) (common : Common) (b : BuildImage) (ctx : Context) : ExecResult :=
  execLoop env common b.BuildType b.NewLayers
    { execCtx := initExecContext env b ctx, baseLayers := b.BaseLayers, done := [],
      created := [], executed := [], outputs := [] }

/-- Whether `ExecBuild` runs an instruction for the layer: not a runtime
command of a lite build. -/
def runsInstruction (common : Common) (buildType : String) (layer : Layer) : Bool :=
  !(decide (buildType = common.LiteBuild) && decide (layer.Type_ = common.CMDCOMMAND))

/-- Whether a layer of the final `newLayers` belongs to the running base chain:
an instruction ran for it and its ID is not empty. -/
def keptInChain (common : Common) (buildType : String) (layer : Layer) : Bool :=
  runsInstruction common buildType layer && layer.ID != ""

/-- Relation of a new layer on entry to the same layer after `ExecBuild`: type
and value are kept, and the whole layer is kept when no instruction runs for it. -/
def LayerKept (common : Common) (buildType : String) (l t : Layer) : Prop :=
  t.Type_ = l.Type_ ∧ t.Value = l.Value ∧ (runsInstruction common buildType l = false → t = l)

/-- Order of the `inst.Exec` log that prefix-only caching asks for: the later
call has the larger index and, when the earlier call saw `ContinueCache = false`,
the later call sees the same exec context. -/
def CacheSticky (a b : Nat × ExecContext) : Prop :=
  a.1 < b.1 ∧ (a.2.ContinueCache = false → b.2 = a.2)

/-- What the loop of `ExecBuild` establishes when it runs on the remaining layers
`rest` from the state `st` and ends in `r`: `tail` is `rest` as left in the
slice, and `cext`, `xext`, `oext` are the log entries the run added. -/
def ExecInv (common : Common) (buildType : String) (rest : List Layer) (st : ExecState)
    (r : ExecResult) : Prop :=
  ∃ (tail : List Layer) (cext : List (Nat × InstructionContext))
    (xext : List (Nat × ExecContext)) (oext : List (Nat × Out)),
    r.newLayers = st.done ++ tail ∧ r.created = st.created ++ cext ∧
    r.executed = st.executed ++ xext ∧ r.outputs = st.outputs ++ oext ∧
    List.Forall₂ (LayerKept common buildType) rest tail ∧
    (∀ e ∈ cext, ∃ k, e.1 = st.done.length + k ∧ rest[k]? = some e.2.CurrentLayer ∧
      runsInstruction common buildType e.2.CurrentLayer = true ∧
      e.2.BaseLayers = st.baseLayers ++ (tail.take k).filter (keptInChain common buildType) ∧
      ∀ j, j < k → ∀ l, rest[j]? = some l → runsInstruction common buildType l = true →
        ∃ out, (st.done.length + j, out) ∈ oext) ∧
    (∀ x ∈ xext, ∃ k l, x.1 = st.done.length + k ∧ rest[k]? = some l ∧
      runsInstruction common buildType l = true) ∧
    (∀ o ∈ oext, ∃ k l, o.1 = st.done.length + k ∧ rest[k]? = some l ∧
      runsInstruction common buildType l = true ∧
      tail[k]? = some { l with ID := o.2.LayerID }) ∧
    (r.err = none → r.baseLayers = st.baseLayers ++ tail.filter (keptInChain common buildType))

/-- What the loop of `ExecBuild` does for the layers that are not skipped, when
it runs on the remaining layers `rest` from the state `st` and ends in `r`: the
instructions are created in increasing index order; every logged output is the
result of the instruction created and executed at its index; a run without error
creates and executes an instruction for every layer for which one runs; and a
run with the error `err` has a layer at which the creation or the execution of
its instruction returned `err`, no instruction created after it, and an
instruction created and executed for every earlier layer for which one runs. -/
def ExecLive (env : ExecEnv) (common : Common) (buildType : String) (rest : List Layer)
    (st : ExecState) (r : ExecResult) : Prop :=
  ∃ (cext : List (Nat × InstructionContext)) (xext : List (Nat × ExecContext))
    (oext : List (Nat × Out)),
    r.created = st.created ++ cext ∧ r.executed = st.executed ++ xext ∧
    r.outputs = st.outputs ++ oext ∧
    List.Pairwise (fun a b => a.1 < b.1) cext ∧
    (∀ c ∈ cext, st.done.length ≤ c.1) ∧
    (∀ o ∈ oext, ∃ ic inst ctx, (o.1, ic) ∈ cext ∧ (o.1, ctx) ∈ xext ∧
      env.NewInstruction ic = .ok inst ∧ inst ctx = .ok o.2) ∧
    (r.err = none → ∀ k l, rest[k]? = some l → runsInstruction common buildType l = true →
      ∃ ic out, (st.done.length + k, ic) ∈ cext ∧ (st.done.length + k, out) ∈ oext) ∧
    (∀ err, r.err = some err →
      ∃ k l ic, rest[k]? = some l ∧ runsInstruction common buildType l = true ∧
        (st.done.length + k, ic) ∈ cext ∧
        (env.NewInstruction ic = .error err ∨
          ∃ inst ctx, env.NewInstruction ic = .ok inst ∧ (st.done.length + k, ctx) ∈ xext ∧
            inst ctx = .error err) ∧
        (∀ c ∈ cext, c.1 ≤ st.done.length + k) ∧
        ∀ j, j < k → ∀ l, rest[j]? = some l → runsInstruction common buildType l = true →
          ∃ ic out, (st.done.length + j, ic) ∈ cext ∧ (st.done.length + j, out) ∈ oext)

/-! ## `BuildImage.collectLayers`, `checkDiff` and `SaveBuildImage` -/

/-- Go `buildimage.SaveOpts`. -/
structure SaveOpts where
  WithoutBase : Bool
  deriving DecidableEq, Repr

/-- Go `v2.Cluster`: the image name `Spec.Image` and the rest of the descriptor. -/
structure Cluster where
  SpecImage : String
  Rest : String
  deriving DecidableEq, Repr

/-- Collaborators of the save path of `BuildImage`, with the result each call
gives: the mount step, the `Process` methods of the registry differ and of the
metadata differ, the cluster file helpers, the layer store and the image store. -/
structure SaveEnv where
  GetLayerMountInfo : List Layer → String → Except GoError MountTarget
  RegistryProcess : MountTarget → MountTarget → Option GoError
  MetadataProcess : MountTarget → MountTarget → Option GoError
  GetRawClusterFile : String → List Layer → Except GoError String
  Unmarshal : String → Except GoError Cluster
  setClusterFileToImage : Cluster → Image → Image × Option GoError
  RegisterLayerForBuilder : String → Except GoError Digest
  generateImageID : Image → Except GoError String
  Save : Image → String → Option GoError

/-- `BuildImage.genNewLayer(layerType, layerValue, filepath)`: the pair `(layer, err)`. -/
def genNewLayer (env : SaveEnv) (layerType layerValue filepath : String) :
    Layer × Option GoError :=
  let imageLayer : Layer := { ID := "", Type_ := layerType, Value := layerValue }
  match env.RegisterLayerForBuilder filepath with
  | .error err => (imageLayer, some ("failed to register layer, err: " ++ err))
  | .ok layerID => ({ imageLayer with ID := layerID }, none)

/-- `BuildImage.collectRootfsDiff()`: the pair `(layer, err)`. -/
def collectRootfsDiff (env : SaveEnv) (common : Common) (b : BuildImage) :
    Layer × Option GoError :=
  let upper := b.RootfsMountInfo.GetMountUpper
  match genNewLayer env common.BaseImageLayerType common.RootfsLayerValue upper with
  | (layer, some err) => (layer, some ("failed to register layer, err: " ++ err))
  | (layer, none) => (layer, none)

/-- `BuildImage.collectLayers(opts)`; `.error err` is the return `(nil, err)`. -/
def collectLayers (env : SaveEnv) (common : Common) (b : BuildImage) (opts : SaveOpts) :
    Except GoError (List Layer) :=
  let layers := if opts.WithoutBase then b.NewLayers else b.BaseLayers ++ b.NewLayers
  match collectRootfsDiff env common b with
  | (_, some err) => .error err
  | (layer, none) =>
    if layer.ID = "" then
      -- no rootfs diff content found
      .ok layers
    else .ok (layers ++ [layer])

/-- State of the differ tasks of `checkDiff`: `err` is the variable `err` of
`checkDiff`, captured by every task closure; `pcs` holds each task's program
counter (0: not started, 1: `err` assigned, 2: returned); `groupErr` is the
first non-nil error a task returned to the error group. -/
structure DiffState where
  err : Option GoError
  pcs : List Nat
  groupErr : Option GoError
  deriving DecidableEq, Repr

/-- One step of task `i`, where `results[i]` is what its differ's `Process` returns.
At counter 0 the task runs `err = d.Process(...)`; at counter 1 it runs
`if err != nil then return err else return nil`, and the error group keeps the first
non-nil error returned. A finished or absent task does not move. -/
def diffStep (results : List (Option GoError)) (s : DiffState) (i : Nat) : DiffState :=
  match s.pcs[i]? with
  | some 0 => { s with err := (results[i]?).join, pcs := s.pcs.set i 1 }
  | some 1 =>
    { s with groupErr := if s.groupErr.isSome then s.groupErr else s.err, pcs := s.pcs.set i 2 }
  | _ => s

/-- The differ tasks run under a schedule: `sched` names the task that moves
next (a finished task does not move); when the schedule is used up the tasks
still running finish one after the other. The result is the state `eg.Wait()` sees. -/
def runDiffers (results : List (Option GoError)) (sched : List Nat) : DiffState :=
  let s0 : DiffState := { err := none, pcs := results.map (fun _ => 0), groupErr := none }
  let s1 := sched.foldl (diffStep results) s0
  ((List.range results.length).flatMap (fun i => [i, i])).foldl (diffStep results) s1

/-- `BuildImage.checkDiff()` under a schedule of its two differ tasks: the returned error. -/
def checkDiff (env : SaveEnv) (b : BuildImage) (sched : List Nat) : Option GoError :=
  match env.GetLayerMountInfo b.NewLayers b.BuildType with
  | .error err => some err
  | .ok mi =>
    let differs := [env.RegistryProcess, env.MetadataProcess]
    (runDiffers (differs.map (fun d => d mi b.RootfsMountInfo)) sched).groupErr

/-- `BuildImage.getImageCluster()`. -/
def getImageCluster (env : SaveEnv) (b : BuildImage) : Except Fault Cluster :=
  match b.RawImage.Spec.Layers with
  | [] => .error (.panic "index out of range [0] with length 0")
  | layer0 :: _ =>
    match env.GetRawClusterFile layer0.Value b.NewLayers with
    | .error err => .error (.error ("failed to get base image err: " ++ err))
    | .ok rawClusterFile =>
      match env.Unmarshal rawClusterFile with
      | .error err => .error (.error err)
      | .ok cluster => .ok cluster

/-- What `SaveBuildImage` leaves behind: the returned error, the image
`*b.RawImage` and the calls of `ImageStore.Save`. -/
structure SaveResult where
  err : Option Fault
  RawImage : Image
  saves : List (Image × String)
  deriving DecidableEq, Repr

/-- `BuildImage.save(name)` on the image `*b.RawImage`. -/
def save (env : SaveEnv) (rawImage : Image) (name : String) : SaveResult :=
  match env.generateImageID rawImage with
  | .error err => { err := some (.error err), RawImage := rawImage, saves := [] }
  | .ok imageID =>
    let raw1 : Image := { rawImage with Spec := { rawImage.Spec with ID := imageID }, Name := name }
    { err := (env.Save raw1 name).map Fault.error, RawImage := raw1, saves := [(raw1, name)] }

/-- `BuildImage.SaveBuildImage(name, opts)` under a schedule of the differ tasks. -/
def SaveBuildImage (env : SaveEnv) (common : Common) (b : BuildImage) (name : String)
    (opts : SaveOpts) (sched : List Nat) : SaveResult :=
  match checkDiff env b sched with
  | some err => { err := some (.error err), RawImage := b.RawImage, saves := [] }
  | none =>
    match getImageCluster env b with
    | .error f => { err := some f, RawImage := b.RawImage, saves := [] }
    | .ok cluster =>
      let cluster1 := { cluster with SpecImage := name }
      match env.setClusterFileToImage cluster1 b.RawImage with
      | (raw1, some err) =>
        { err := some (.error ("failed to set image metadata, err: " ++ err)), RawImage := raw1,
          saves := [] }
      | (raw1, none) =>
        match collectLayers env common b opts with
        | .error err => { err := some (.error err), RawImage := raw1, saves := [] }
        | .ok layers =>
          let raw2 : Image := { raw1 with Spec := { raw1.Spec with Layers := layers } }
          let r := save env raw2 name
          match r.err with
          | some (.error err) =>
            { r with err := some (.error ("failed to save image metadata, err: " ++ err)) }
          | _ => r

/-! ## Source digest and cache probe of `buildinstruction/utils.go` -/

/-- Collaborators of `GenerateSourceFilesDigest` over a file system state `FS`:
`fsutil.ResolveWildcards`, `archive.TarCanonicalDigest` (its digest result),
`utils.MkTmpdir`, `os.RemoveAll` and `fsutil.Copy`. -/
structure DigestEnv (FS : Type) where
  ResolveWildcards : FS → String → String → Except GoError (List String)
  TarCanonicalDigest : FS → String → Except GoError Digest
  MkTmpdir : FS → String × Option GoError × FS
  RemoveAll : FS → String → FS
  Copy : FS → String → String → String → String → Except GoError FS

/-- `generateDigest(path)`. -/
def generateDigest {FS : Type} (env : DigestEnv FS) (fs : FS) (path : String) :
    Except GoError Digest :=
  match env.TarCanonicalDigest fs path with
  | .error err => .error err
  | .ok layerDgst => .ok layerDgst

/-- The staging loop of `GenerateSourceFilesDigest`: copy each match into `tmp`
under its base name; stops at the first error. -/
def stageAll {FS : Type} (env : DigestEnv FS) (root tmp : String) :
    List String → FS → FS × Option GoError
  | [], fs => (fs, none)
  | s :: rest, fs =>
    match env.Copy fs root s tmp (Base s) with
    | .error err => (fs, some err)
    | .ok fs1 => stageAll env root tmp rest fs1

/-- `GenerateSourceFilesDigest(root, src)`: the file system state it leaves and
the digest or error it returns. -/
def GenerateSourceFilesDigest {FS : Type} (env : DigestEnv FS) (fs : FS) (root src : String) :
    FS × Except GoError Digest :=
  match env.ResolveWildcards fs root src with
  | .error err => (fs, .error err)
  | .ok m =>
    -- wrong wildcards: no such file or directory
    if m.length = 0 then (fs, .error (src ++ " not found"))
    else if m.length = 1 then (fs, generateDigest env fs (Join [root, src]))
    else
      match env.MkTmpdir fs with
      | (tmp, some err, fs1) => (fs1, .error ("failed to create tmp dir " ++ tmp ++ ":" ++ err))
      | (tmp, none, fs1) =>
        match stageAll env root tmp m fs1 with
        | (fs2, some err) => (env.RemoveAll fs2 tmp, .error err)
        | (fs2, none) => (env.RemoveAll fs2 tmp, generateDigest env fs2 tmp)

/-- Collaborators of `tryCache` over the type `CL` of cache layers:
`cacheService.NewCacheLayer`, `prober.Probe` and the method `ChainID` of a cache layer. -/
structure CacheEnv (CL : Type) where
  NewCacheLayer : Layer → Digest → CL
  Probe : String → CL → Except GoError Digest
  ChainID : CL → ChainID → Except GoError ChainID

/-- `tryCache(parentID, layer, cacheService, prober, srcFilesDgst)`: the triple
`(hitCache, layerID, chainID)`. -/
def tryCache {CL : Type} (env : CacheEnv CL) (parentID : ChainID) (layer : Layer)
    (srcFilesDgst : Digest) : Bool × Digest × ChainID :=
  let cacheLayer := env.NewCacheLayer layer srcFilesDgst
  match env.Probe parentID cacheLayer with
  | .error _ => (false, "", "")
  | .ok cacheLayerID =>
    -- cache hit
    match env.ChainID cacheLayer parentID with
    | .error _ => (false, "", "")
    | .ok cID => (true, cacheLayerID, cID)

/-! ## `image/blob.go` -/

/-- Go `distribution.Descriptor`, the fields `blobService` sets. -/
structure Descriptor where
  MediaType : String
  Size : Int
  Digest : Digest
  deriving DecidableEq, Repr

/-- Go `blobService`: the map `descriptors`. `none` is the nil map of a zero-value
service, `some m` an allocated map, a finite map with one entry per key. -/
structure blobService where
  descriptors : Option (AList (fun _ : Digest => Descriptor))

/-- The error `distribution.ErrBlobUnknown`. -/
def ErrBlobUnknown : GoError := "unknown blob"

/-- `blobService.Stat(ctx, dgst)`; reading the nil map finds no entry. -/
def blobService.Stat (bs : blobService) (dgst : Digest) : Except GoError Descriptor :=
  match bs.descriptors with
  | none => .error ErrBlobUnknown
  | some m =>
    match m.lookup dgst with
    | some descriptor => .ok descriptor
    | none => .error ErrBlobUnknown

/-- `blobService.Put(ctx, mediaType, p)`, where `FromBytes` is `digest.FromBytes`:
the service after the call and the returned descriptor (the returned error is
nil), or the panic of the assignment `bs.descriptors[d.Digest] = d` on the nil map. -/
def blobService.Put (FromBytes : List UInt8 → Digest) (bs : blobService) (mediaType : String)
    (p : List UInt8) : Except Fault (blobService × Descriptor) :=
  let d : Descriptor :=
    { Digest := FromBytes p, Size := Int.ofNat p.length, MediaType := mediaType }
  match bs.descriptors with
  | none => .error (.panic "assignment to entry in nil map")
  | some m => .ok ({ descriptors := some (m.insert d.Digest d) }, d)

/-! ## `image/util.go`: `GetImageAllLayers` -/

/-- The loop `for` of `GetImageAllLayers`, where `GetImage` is
`imageUtils.GetImage`; `res` is the list accumulated so far. The loop has no
bound of its own: `none` says it is still running after `fuel` iterations. -/
def getImageAllLayersLoop (GetImage : String → Except GoError Image) (common : Common) :
    Nat → Image → List Layer → Option (Except Fault (List Layer))
  | 0, _, _ => none
  | fuel + 1, image, res =>
    match image.Spec.Layers with
    | [] => some (.error (.panic "slice bounds out of range [1:0]"))
    | layer0 :: rest =>
      let res1 := res ++ rest
      if layer0.Value = common.ImageScratch then some (.ok res1)
      else if res1.length > 128 then
        some (.error (.error "current layer is exceed 128 layers"))
      else
        match GetImage layer0.Value with
        | .error err => some (.error (.error err))
        | .ok i => getImageAllLayersLoop GetImage common fuel i res1

/-- `GetImageAllLayers(image)`, run for at most `fuel` iterations of its loop. -/
def GetImageAllLayers (GetImage : String → Except GoError Image) (common : Common)
    (fuel : Nat) (image : Image) : Option (Except Fault (List Layer)) :=
  getImageAllLayersLoop GetImage common fuel image []

/-! ## `buildinstruction/utils.go`: `GetBaseLayersPath` and `ParseCopyLayerContent` -/

/-- The part of a digest after its first `:`, the encoded (hex) part. -/
def hexPart (d : Digest) : String :=
  String.mk ((d.data.dropWhile (fun c => c != ':')).drop 1)

/-- Go `digest.Digest.Hex` of the go-digest library: the digest from the index
after its first `:` on, `d[d.sepIndex()+1:]`; `sepIndex` panics when the digest
holds no `:` (the panic message is shortened here). -/
def Hex (d : Digest) : Except Fault String :=
  if ':' ∈ d.data then .ok (hexPart d)
  else .error (.panic ("no separator in digest " ++ d))

/-- The loop of `GetBaseLayersPath` over the remaining layers; `res` is the
slice built so far. A panic of `layer.ID.Hex()` ends the call. -/
def getBaseLayersPathLoop (common : Common) :
    List Layer → List String → Except Fault (List String)
  | [], res => .ok res
  | layer :: rest, res =>
    if layer.ID ≠ "" then
      match Hex layer.ID with
      | .error f => .error f
      | .ok hex =>
        getBaseLayersPathLoop common rest (res ++ [Join [common.DefaultLayerDir, hex]])
    else getBaseLayersPathLoop common rest res

/-- `GetBaseLayersPath(layers)`: the slice `res`, which starts nil, or the panic
of `Hex`. -/
def GetBaseLayersPath (common : Common) (layers : List Layer) : Except Fault (List String) :=
  getBaseLayersPathLoop common layers []

/-- Go `unicode.IsSpace`: the white space characters of Unicode. -/
def isSpace (c : Char) : Bool :=
  c == '\t' || c == '\n' || c.toNat == 11 || c.toNat == 12 || c == '\r' || c == ' ' ||
  c.toNat == 0x85 || c.toNat == 0xA0 || c.toNat == 0x1680 ||
  (0x2000 ≤ c.toNat && c.toNat ≤ 0x200A) || c.toNat == 0x2028 || c.toNat == 0x2029 ||
  c.toNat == 0x202F || c.toNat == 0x205F || c.toNat == 0x3000

/-- The scan of Go `strings.Fields` over the unread input: `cur` is the field
being read (`none` between fields). White space ends the current field; the
last field may end at the end of the input. -/
def fieldsLoop : List Char → Option (List Char) → List (List Char)
  | [], none => []
  | [], some f => [f]
  | c :: t, cur =>
    if isSpace c then
      match cur with
      | none => fieldsLoop t none
      | some f => f :: fieldsLoop t none
    else fieldsLoop t (some (cur.getD [] ++ [c]))

/-- Go `strings.Fields`, on the characters (runes) of the string. -/
def Fields (s : String) : List String := (fieldsLoop s.data none).map String.mk

/-- Go `strings.TrimPrefix`. -/
def TrimPrefix (s pre : String) : String :=
  if pre.data.isPrefixOf s.data then String.mk (s.data.drop pre.data.length) else s

/-- Go `strings.TrimSuffix`. -/
def TrimSuffix (s suf : String) : String :=
  if suf.data.isSuffixOf s.data then String.mk (s.data.take (s.data.length - suf.data.length))
  else s

/-- `ParseCopyLayerContent(layerValue)`: the pair `(src, dst)`, or the panic of
an index out of range. -/
def ParseCopyLayerContent (layerValue : String) : Except Fault (String × String) :=
  match Fields layerValue with
  | [] => .error (.panic "index out of range [1] with length 0")
  | [_] => .error (.panic "index out of range [1] with length 1")
  | f0 :: f1 :: _ =>
    let dst := ["./", "/"].foldl (fun dst p => TrimPrefix dst p) f1
    let dst := TrimSuffix dst "/"
    .ok (f0, dst)

/-- The destination as the specification words it, as a relation between the
second field `f1` and `dst`: `x1` is `f1` without one leading `./` if it has one,
`x2` is `x1` without one leading `/` if it has one, and `dst` is `x2` without one
trailing `/` if it has one. -/
def TrimmedDst (f1 dst : List Char) : Prop :=
  ∃ x1 x2 : List Char,
    (f1 = '.' :: '/' :: x1 ∨ ((¬ ∃ r, f1 = '.' :: '/' :: r) ∧ x1 = f1)) ∧
    (x1 = '/' :: x2 ∨ ((¬ ∃ r, x1 = '/' :: r) ∧ x2 = x1)) ∧
    (x2 = dst ++ ['/'] ∨ ((¬ ∃ r, x2 = r ++ ['/']) ∧ dst = x2))

/-- The slash-separated elements of a path, empty ones included. -/
def pathElements : List Char → List (List Char)
  | [] => [[]]
  | c :: t =>
    if isPathSeparator c then [] :: pathElements t
    else
      match pathElements t with
      | [] => [[c]]
      | e :: es => (c :: e) :: es

/-- What `filepath.Clean` does with one path element: nothing for an empty
element or `.`, the `..` case for `..`, and the default case (a slash if needed,
then the element) for any other. -/
def elemAction (rooted : Bool) (st : CleanState) (e : List Char) : CleanState :=
  if e = [] ∨ e = ['.'] then st
  else if e = ['.', '.'] then dotdotStep rooted st
  else
    { st with out :=
        (if (rooted && st.out.length != 1) || (!rooted && st.out.length != 0) then st.out ++ ['/']
         else st.out) ++ e }

/-- Whether, reading the path elements from depth `d` below a directory, some
`..` element climbs above that directory: a real element goes one level down,
`..` goes one level up and climbs above the directory at depth 0. -/
def climbsAbove : Nat → List (List Char) → Bool
  | _, [] => false
  | d, e :: es =>
    if e = [] ∨ e = ['.'] then climbsAbove d es
    else if e = ['.', '.'] then
      match d with
      | 0 => true
      | d + 1 => climbsAbove d es
    else climbsAbove (d + 1) es

/-- Whether some `..` element of the destination climbs above the directory the
destination is resolved in, that is, has no earlier element of the destination,
not yet cancelled, to remove. -/
def climbsAboveStart (dst : String) : Bool := climbsAbove 0 (pathElements dst.data)

/-- The text of a chain of path elements below a directory: each element after a slash. -/
def chainOf : List (List Char) → List Char
  | [] => []
  | c :: cs => '/' :: c ++ chainOf cs

/-! ## Sample environments -/

/-- Build environment of the examples: the Kubefile gives a scratch image with
`n` copy layers, every collaborator succeeds. -/
def sampleBuildEnv (n : Nat) : BuildEnv where
  InitImageSpec := fun _ =>
    .ok { Name := "", Annotations := [],
          Spec := { ID := "", Layers := { ID := "", Type_ := "FROM", Value := "scratch" } ::
            List.replicate n { ID := "", Type_ := "COPY", Value := "a ." } } }
  NewDefaultLayerStore := .ok ()
  NewDefaultImageStore := .ok ()
  NewImageService := .ok ()
  PullIfNotExist := fun _ => none
  GetByName := fun _ => .error "image not found"
  GetLayerMountInfo := fun _ _ => .ok { TempTarget := "/tmp/t", TempUpper := "/tmp/u", LowLayers := [] }

/-- Constants of package `common` as the examples use them. -/
def sampleCommon : Common where
  LiteBuild := "lite"
  CMDCOMMAND := "CMD"
  ImageScratch := "scratch"
  BaseImageLayerType := "BASE"
  RootfsLayerValue := "rootfs cache"
  DefaultLayerDir := "/var/lib/sealer/data/overlay2"


/-- Exec environment of the examples: every instruction succeeds; a copy layer
yields a layer id, any other layer yields none; each output reports a cache hit. -/
def sampleExecEnv : ExecEnv where
  NewExecContext := fun buildType buildContext =>
    { BuildContext := buildContext, BuildType := buildType, ContinueCache := true, ParentID := "" }
  NewExecContextWithoutCache := fun buildType buildContext =>
    { BuildContext := buildContext, BuildType := buildType, ContinueCache := false, ParentID := "" }
  NewInstruction := fun ic =>
    .ok (fun execCtx =>
      .ok { LayerID := if ic.CurrentLayer.Type_ = "COPY" then "sha256:" ++ ic.CurrentLayer.Value else "",
            ParentID := execCtx.ParentID ++ "+", ContinueCache := true })

/-- Lite build of the examples: base layer `b0`, new layers copy, cmd, run, copy. -/
def sampleBuild : BuildImage where
  BuildType := "lite"
  RawImage := { Name := "", Spec := { ID := "", Layers := [] }, Annotations := [] }
  BaseLayers := [{ ID := "sha256:b0", Type_ := "COPY", Value := "b0" }]
  NewLayers :=
    [{ ID := "", Type_ := "COPY", Value := "a" }, { ID := "", Type_ := "CMD", Value := "ls" },
     { ID := "", Type_ := "RUN", Value := "echo hi" }, { ID := "", Type_ := "COPY", Value := "c" }]
  RootfsMountInfo := { TempTarget := "/tmp/t", TempUpper := "/tmp/u", LowLayers := [] }

/-- Build image of the save examples: a scratch image with one copy layer. -/
def sampleSaveBuild : BuildImage where
  BuildType := "lite"
  RawImage :=
    { Name := "", Annotations := [],
      Spec := { ID := "", Layers := [{ ID := "", Type_ := "FROM", Value := "scratch" },
                                      { ID := "", Type_ := "COPY", Value := "a ." }] } }
  BaseLayers := []
  NewLayers := [{ ID := "sha256:aa", Type_ := "COPY", Value := "a ." }]
  RootfsMountInfo := { TempTarget := "/tmp/t", TempUpper := "/tmp/u", LowLayers := [] }

/-- Save environment of the examples: the registry differ fails, the metadata
differ and every other collaborator succeed. -/
def sampleSaveEnv : SaveEnv where
  GetLayerMountInfo := fun _ _ => .ok { TempTarget := "/tmp/m", TempUpper := "/tmp/n", LowLayers := [] }
  RegistryProcess := fun _ _ => some "registry differ failed"
  MetadataProcess := fun _ _ => none
  GetRawClusterFile := fun _ _ => .ok "kind: Cluster"
  Unmarshal := fun raw => .ok { SpecImage := "", Rest := raw }
  setClusterFileToImage := fun cluster image =>
    ({ image with Annotations := [("sea.aliyun.com/ClusterFile", cluster.SpecImage)] }, none)
  RegisterLayerForBuilder := fun _ => .ok "sha256:dd"
  generateImageID := fun _ => .ok "imageid"
  Save := fun _ _ => none

/-- Digest environment of the examples: the build context `/ctx` holds the single
file `a.txt`, which the pattern `*.txt` matches; the file system state is trivial. -/
def sampleDigestEnv : DigestEnv Unit where
  ResolveWildcards := fun _ root src =>
    if root = "/ctx" ∧ (src = "*.txt" ∨ src = "a.txt") then .ok ["a.txt"] else .ok []
  TarCanonicalDigest := fun _ path =>
    if path = "/ctx/a.txt" then .ok "sha256:a"
    else .error ("lstat " ++ path ++ ": no such file or directory")
  MkTmpdir := fun fs => ("/tmp/sealer1", none, fs)
  RemoveAll := fun fs _ => fs
  Copy := fun fs _ _ _ _ => .ok fs

/-- Cache environment of the examples: a cache layer is the layer with its
source digest; one record is stored under the empty parent chain. -/
def sampleCacheEnv : CacheEnv (Layer × Digest) where
  NewCacheLayer := fun layer dgst => (layer, dgst)
  Probe := fun parent cl =>
    if parent = "" ∧ cl.2 = "sha256:src" then .ok "sha256:hit" else .error "cache miss"
  ChainID := fun cl parent => .ok (parent ++ "/" ++ cl.2)

/-- Image store of the examples: the image `base` is a scratch image with 100 layers. -/
def sampleGetImage : String → Except GoError Image := fun name =>
  if name = "base" then
    .ok { Name := "base", Annotations := [],
          Spec := { ID := "", Layers := { ID := "", Type_ := "FROM", Value := "scratch" } ::
            List.replicate 100 { ID := "", Type_ := "COPY", Value := "a ." } } }
  else .error "image not found"

/-- Image whose from layer names `parent`, followed by `n` copy layers. -/
def sampleImage (parent : String) (n : Nat) : Image where
  Name := "img"
  Annotations := []
  Spec := { ID := "", Layers := { ID := "", Type_ := "FROM", Value := parent } ::
    List.replicate n { ID := "", Type_ := "COPY", Value := "a ." } }

/-- Digest function of the examples, standing for `digest.FromBytes`. -/
def sampleFromBytes : List UInt8 → Digest := fun p => "sha256:" ++ String.mk (p.map (fun _ => 'a'))

/-- Blob content of the examples. -/
def samplePayload : List UInt8 := [1, 2]

/-- Descriptor that `Put` gives for the blob content of the examples. -/
def sampleDescriptor : Descriptor :=
  { Digest := sampleFromBytes samplePayload, Size := Int.ofNat samplePayload.length,
    MediaType := "text/plain" }

/-- Layer list of the path examples: a layer with a digest ID and one with no ID. -/
def sampleLayers : List Layer :=
  [{ ID := "sha256:ab12", Type_ := "COPY", Value := "a ." }, { ID := "", Type_ := "CMD", Value := "ls" }]

/-! ## Path cleaning: the copy destination table -/

theorem length_dropWhile_le {α : Type} (p : α → Bool) (l : List α) :
    (l.dropWhile p).length ≤ l.length := by
  induction l with
  | nil => simp
  | cons a l ih =>
    simp only [List.dropWhile]
    split
    · simp; omega
    · simp

theorem cleanLoop_fuel (rooted : Bool) :
    ∀ (f g : Nat) (rest : List Char) (st : CleanState), rest.length ≤ f → rest.length ≤ g →
      cleanLoop rooted f rest st = cleanLoop rooted g rest st := by
  intro f
  induction f with
  | zero =>
    intro g rest st hf _
    have : rest = [] := List.length_eq_zero.mp (Nat.le_zero.mp hf)
    subst this
    cases g <;> simp [cleanLoop]
  | succ f ih =>
    intro g rest st hf hg
    cases rest with
    | nil => cases g <;> simp [cleanLoop]
    | cons c t =>
      cases g with
      | zero => simp at hg
      | succ g =>
        simp only [List.length_cons, Nat.add_le_add_iff_right] at hf hg
        have hd := length_dropWhile_le (fun c => !isPathSeparator c) t
        simp only [cleanLoop]
        split
        · exact ih g t st hf hg
        · split
          · exact ih g t st hf hg
          · split
            · apply ih <;> simp <;> omega
            · rename_i h1 _ _
              have : (c :: t).dropWhile (fun c => !isPathSeparator c) = t.dropWhile (fun c => !isPathSeparator c) := by
                simp [List.dropWhile, h1]
              rw [this]
              apply ih <;> omega


theorem run_nil (rooted : Bool) (st : CleanState) : run rooted [] st = st := by
  simp [run, cleanLoop]

theorem run_cons (rooted : Bool) (c : Char) (t : List Char) (st : CleanState) :
    run rooted (c :: t) st =
      if isPathSeparator c then run rooted t st
      else if c == '.' && elemEnd t then run rooted t st
      else if c == '.' && t.head? == some '.' && elemEnd t.tail then
        run rooted t.tail (dotdotStep rooted st)
      else run rooted ((c :: t).dropWhile (fun c => !isPathSeparator c))
        (elemStep rooted (c :: t) st) := by
  have hd := length_dropWhile_le (fun c => !isPathSeparator c) (c :: t)
  simp only [run, List.length_cons, cleanLoop]
  split
  · rfl
  · split
    · rfl
    · split
      · apply cleanLoop_fuel <;> simp
      · rename_i h1 _ _
        have h2 : (c :: t).dropWhile (fun c => !isPathSeparator c) = t.dropWhile (fun c => !isPathSeparator c) := by
          simp [List.dropWhile, h1]
        have hd := length_dropWhile_le (fun c => !isPathSeparator c) t
        rw [h2]
        apply cleanLoop_fuel <;> omega

theorem elemEnd_append (t r : List Char) : elemEnd (t ++ '/' :: r) = elemEnd t := by
  cases t <;> simp [elemEnd, isPathSeparator]

theorem dropWhile_append_sep (l r : List Char) :
    (l ++ '/' :: r).dropWhile (fun c => !isPathSeparator c)
      = l.dropWhile (fun c => !isPathSeparator c) ++ '/' :: r := by
  induction l with
  | nil => simp [List.dropWhile, isPathSeparator]
  | cons a l ih =>
    simp only [List.cons_append, List.dropWhile]
    split
    · exact ih
    · rfl

theorem takeWhile_append_sep (l r : List Char) :
    (l ++ '/' :: r).takeWhile (fun c => !isPathSeparator c)
      = l.takeWhile (fun c => !isPathSeparator c) := by
  induction l with
  | nil => simp [List.takeWhile, isPathSeparator]
  | cons a l ih =>
    simp only [List.cons_append, List.takeWhile]
    split
    · exact congrArg (a :: ·) ih
    · rfl

theorem elemStep_append_sep (rooted : Bool) (l r : List Char) (st : CleanState) :
    elemStep rooted (l ++ '/' :: r) st = elemStep rooted l st := by
  simp only [elemStep, takeWhile_append_sep]

theorem run_append_sep (rooted : Bool) (r : List Char) :
    ∀ (n : Nat) (l : List Char) (st : CleanState), l.length ≤ n →
      run rooted (l ++ '/' :: r) st = run rooted r (run rooted l st) := by
  intro n
  induction n with
  | zero =>
    intro l st h
    have : l = [] := List.length_eq_zero.mp (Nat.le_zero.mp h)
    subst this
    simp [run_nil, run_cons, isPathSeparator]
  | succ n ih =>
    intro l st h
    cases l with
    | nil => simp [run_nil, run_cons, isPathSeparator]
    | cons c t =>
      simp only [List.length_cons, Nat.add_le_add_iff_right] at h
      have hdrop := dropWhile_append_sep (c :: t) r
      have hstep := elemStep_append_sep rooted (c :: t) r st
      rw [List.cons_append] at hdrop hstep
      rw [List.cons_append, run_cons, run_cons rooted c t, hdrop, hstep, elemEnd_append]
      by_cases h1 : isPathSeparator c = true
      · simp only [h1, if_true]
        exact ih t st h
      · simp only [h1, if_false]
        have hlen : ((c :: t).dropWhile (fun c => !isPathSeparator c)).length ≤ n := by
          have h6 : (c :: t).dropWhile (fun c => !isPathSeparator c)
              = t.dropWhile (fun c => !isPathSeparator c) := by
            simp [List.dropWhile, h1]
          have := length_dropWhile_le (fun c => !isPathSeparator c) t
          rw [h6]; omega
        by_cases h2 : (c == '.' && elemEnd t) = true
        · simp only [h2, if_true]
          exact ih t st h
        · simp only [h2, if_false]
          cases t with
          | nil =>
            have hc : (c == '.') = false := by simpa [elemEnd] using h2
            simp only [hc, Bool.false_and, Bool.false_eq_true, if_false]
            exact ih _ _ hlen
          | cons d t =>
            simp only [List.cons_append, List.head?_cons, List.tail_cons, elemEnd_append]
            by_cases h3 : (c == '.' && (some d == some '.') && elemEnd t) = true
            · simp only [h3, if_true]
              apply ih
              simp only [List.length_cons] at h
              omega
            · simp only [h3, if_false]
              exact ih _ _ hlen


theorem dotdotStep_rooted_dotdot (st : CleanState) : (dotdotStep true st).dotdot = st.dotdot := by
  unfold dotdotStep
  split <;> simp

theorem cleanLoop_rooted_dotdot :
    ∀ (f : Nat) (rest : List Char) (st : CleanState),
      (cleanLoop true f rest st).dotdot = st.dotdot := by
  intro f
  induction f with
  | zero => intro rest st; simp [cleanLoop]
  | succ f ih =>
    intro rest st
    cases rest with
    | nil => simp [cleanLoop]
    | cons c t =>
      simp only [cleanLoop]
      split
      · exact ih _ _
      · split
        · exact ih _ _
        · split
          · rw [ih, dotdotStep_rooted_dotdot]
          · rw [ih]; simp [elemStep]

theorem cleanAbs_state (R : String) (h : IsCleanAbs R) :
    ∃ t, R.data = '/' :: t ∧ run true t { out := ['/'], dotdot := 1 } = { out := R.data, dotdot := 1 } := by
  obtain ⟨habs, hclean⟩ := h
  have hc : cleanChars R.data = R.data := congrArg String.data hclean
  cases hR : R.data with
  | nil => rw [hR] at habs; simp at habs
  | cons c t =>
    rw [hR] at habs hc
    simp only [List.head?_cons, Option.some.injEq] at habs
    subst habs
    refine ⟨t, rfl, ?_⟩
    have hfuel : cleanLoop true ('/' :: t).length t { out := ['/'], dotdot := 1 }
        = run true t { out := ['/'], dotdot := 1 } := by
      apply cleanLoop_fuel <;> simp
    have hdd := cleanLoop_rooted_dotdot t.length t { out := ['/'], dotdot := 1 }
    simp only [cleanChars, isPathSeparator, beq_self_eq_true, if_true, hfuel] at hc
    change (run true t { out := ['/'], dotdot := 1 }).dotdot = 1 at hdd
    generalize run true t { out := ['/'], dotdot := 1 } = st at hc hdd
    obtain ⟨o, d⟩ := st
    simp only at hc hdd
    split at hc
    · simp at hc
    · subst hc; subst hdd; rfl

theorem clean_under (R d : String) (h : IsCleanAbs R) :
    Clean (R ++ "/" ++ d) = String.mk (finish (run true d.data { out := R.data, dotdot := 1 })) := by
  obtain ⟨t, hR, hrun⟩ := cleanAbs_state R h
  have hdata : (R ++ "/" ++ d).data = '/' :: (t ++ '/' :: d.data) := by
    simp [String.data_append, hR]
  have hfuel : cleanLoop true ('/' :: (t ++ '/' :: d.data)).length (t ++ '/' :: d.data)
      { out := ['/'], dotdot := 1 } = run true (t ++ '/' :: d.data) { out := ['/'], dotdot := 1 } := by
    apply cleanLoop_fuel <;> simp
  unfold Clean
  rw [hdata]
  simp only [cleanChars, isPathSeparator, beq_self_eq_true, if_true, hfuel]
  rw [run_append_sep true d.data t.length t _ (Nat.le_refl _), hrun]
  rfl

theorem join_under (R d : String) (h : IsCleanAbs R) :
    Join [R, d] = String.mk (finish (run true d.data { out := R.data, dotdot := 1 })) := by
  have hne : R ≠ "" := by
    intro h0; subst h0; exact absurd h.1 (by decide)
  simp only [Join, hne, ne_eq, not_false_eq_true, if_true]
  rw [← clean_under R d h]
  rfl


theorem cleanAbs_length (R : String) (h : IsCleanAbs R) (hR : R ≠ "/") : R.length ≠ 1 := by
  obtain ⟨t, hR', -⟩ := cleanAbs_state R h
  intro hl
  apply hR
  have : R.data.length = 1 := hl
  rw [hR'] at this
  simp at this
  subst this
  exact String.ext hR'

theorem join_join_under (R a b : String) (h : IsCleanAbs R) :
    Join [R ++ "/" ++ a, b]
      = String.mk (finish (run true (a ++ "/" ++ b).data { out := R.data, dotdot := 1 })) := by
  have hne : R ++ "/" ++ a ≠ "" := by
    intro h0
    have := congrArg String.data h0
    simp [String.data_append] at this
  simp only [Join, hne, ne_eq, not_false_eq_true, if_true]
  rw [← clean_under R _ h]
  simp [String.intercalate, String.intercalate.go, String.append_assoc]

/-- Claim C1. Copy destination table of `paresCopyDestPath`: for every clean
absolute target root `R`, the destinations `.`, `./`, `/` and `/.` resolve to `R`
itself, and joining the source base name `abc` to the resolved destination
gives `R/abc` for `.` and `./`, `R/manifest/abc` for `./manifest`, `R/charts/abc`
for `charts`, `R/charts/test/abc` for `charts/test` and `R/tmp/abc` for `/tmp`,
where `R/rel` is the path `rel` below `R`. -/
theorem copy_dest_table (R : String) (hR : IsCleanAbs R) :
    paresCopyDestPath "." R = R ∧ paresCopyDestPath "./" R = R ∧
    paresCopyDestPath "/" R = R ∧ paresCopyDestPath "/." R = R ∧
    Join [paresCopyDestPath "." R, "abc"] = beneath R "abc" ∧
    Join [paresCopyDestPath "./" R, "abc"] = beneath R "abc" ∧
    Join [paresCopyDestPath "./manifest" R, "abc"] = beneath R "manifest/abc" ∧
    Join [paresCopyDestPath "charts" R, "abc"] = beneath R "charts/abc" ∧
    Join [paresCopyDestPath "charts/test" R, "abc"] = beneath R "charts/test/abc" ∧
    Join [paresCopyDestPath "/tmp" R, "abc"] = beneath R "tmp/abc" := by
  by_cases h1 : R = "/"
  · subst h1
    decide
  · have hl := cleanAbs_length R hR h1
    have e1 : Join [R, "abc"] = R ++ "/" ++ "abc" := by
      rw [join_under R _ hR]
      apply String.ext
      simp [run, cleanLoop, finish, elemStep, isPathSeparator, elemEnd, hl]
    have e2 : Join [R, "./manifest"] = R ++ "/" ++ "manifest" := by
      rw [join_under R _ hR]
      apply String.ext
      simp [run, cleanLoop, finish, elemStep, isPathSeparator, elemEnd, hl]
    have e3 : Join [R, "charts"] = R ++ "/" ++ "charts" := by
      rw [join_under R _ hR]
      apply String.ext
      simp [run, cleanLoop, finish, elemStep, isPathSeparator, elemEnd, hl]
    have e4 : Join [R, "charts/test"] = R ++ "/" ++ "charts/test" := by
      rw [join_under R _ hR]
      apply String.ext
      simp [run, cleanLoop, finish, elemStep, isPathSeparator, elemEnd, hl]
    have e5 : Join [R, "/tmp"] = R ++ "/" ++ "tmp" := by
      rw [join_under R _ hR]
      apply String.ext
      simp [run, cleanLoop, finish, elemStep, isPathSeparator, elemEnd, hl]
    have p1 : paresCopyDestPath "./manifest" R = Join [R, "./manifest"] := by
      simp [paresCopyDestPath]
    have p2 : paresCopyDestPath "charts" R = Join [R, "charts"] := by
      simp [paresCopyDestPath]
    have p3 : paresCopyDestPath "charts/test" R = Join [R, "charts/test"] := by
      simp [paresCopyDestPath]
    have p4 : paresCopyDestPath "/tmp" R = Join [R, "/tmp"] := by
      simp [paresCopyDestPath]
    have q0 : paresCopyDestPath "." R = R := by simp [paresCopyDestPath]
    have q1 : paresCopyDestPath "./" R = R := by simp [paresCopyDestPath]
    have q2 : paresCopyDestPath "/" R = R := by simp [paresCopyDestPath]
    have q3 : paresCopyDestPath "/." R = R := by simp [paresCopyDestPath]
    rw [p1, p2, p3, p4, q0, q1, q2, q3, e1, e2, e3, e4, e5]
    simp only [beneath, h1, if_false]
    refine ⟨trivial, trivial, trivial, trivial, trivial, trivial, ?_, ?_, ?_, ?_⟩
    all_goals
      rw [join_join_under R _ _ hR]
      apply String.ext
      simp [run, cleanLoop, finish, elemStep, isPathSeparator, elemEnd, hl]

theorem copy_dest_table_witness :
    IsCleanAbs "/var/lib/sealer/tmp" ∧
      Join [paresCopyDestPath "/tmp" "/var/lib/sealer/tmp", "abc"] = "/var/lib/sealer/tmp/tmp/abc" :=
  ⟨by decide, (copy_dest_table "/var/lib/sealer/tmp" (by decide)).2.2.2.2.2.2.2.2.2⟩

/-! ## Depth enforcement in `NewBuildImage` -/

theorem resolveBaseImage_no_mount (env : BuildEnv) (common : Common) (layer0 : Layer) :
    ∀ c ∈ (resolveBaseImage env common layer0).1, c.isMount = false := by
  unfold resolveBaseImage
  split
  · simp
  · split
    · simp [BuildCall.isMount]
    · split <;> simp [BuildCall.isMount]

/-- Claim C2. Depth enforcement in `NewBuildImage`: once the image spec is read, the
stores and the service are created and the base image is resolved, a total of
base layers and new layers (the spec's layers after the leading from layer)
above 128 makes `NewBuildImage` return the error "current number of layers
exceeds 128 layers" with no call of `GetLayerMountInfo` in the log; with a total
of at most 128 the depth check passes: `GetLayerMountInfo` is called on the base
layers and its outcome decides the result. -/
theorem newBuildImage_depth (env : BuildEnv) (common : Common) (kubefileName buildType : String)
    (rawImage baseImage : Image) (layer0 : Layer) (newLayers : List Layer)
    (calls : List BuildCall)
    (h0 : env.InitImageSpec kubefileName = .ok rawImage)
    (h1 : env.NewDefaultLayerStore = .ok ())
    (h2 : env.NewDefaultImageStore = .ok ())
    (h3 : env.NewImageService = .ok ())
    (hl : rawImage.Spec.Layers = layer0 :: newLayers)
    (hb : resolveBaseImage env common layer0 = (calls, .ok baseImage)) :
    (128 < baseImage.Spec.Layers.length + newLayers.length →
      (NewBuildImage env common kubefileName buildType).2
          = .error (.error "current number of layers exceeds 128 layers") ∧
        ∀ c ∈ (NewBuildImage env common kubefileName buildType).1, c.isMount = false) ∧
    (baseImage.Spec.Layers.length + newLayers.length ≤ 128 →
      (NewBuildImage env common kubefileName buildType).1
          = calls ++ [.GetLayerMountInfo baseImage.Spec.Layers buildType] ∧
        (NewBuildImage env common kubefileName buildType).2
          = match env.GetLayerMountInfo baseImage.Spec.Layers buildType with
            | .error err => .error (.error err)
            | .ok mountInfo =>
              .ok { BuildType := buildType, RawImage := rawImage,
                    BaseLayers := baseImage.Spec.Layers, NewLayers := newLayers,
                    RootfsMountInfo := mountInfo }) := by
  have hcalls := resolveBaseImage_no_mount env common layer0
  rw [hb] at hcalls
  constructor
  · intro hgt
    have hgt2 : baseImage.Spec.Layers.length + newLayers.length > maxLayerDeep := hgt
    simp only [NewBuildImage, h0, h1, h2, h3, hl, hb, List.nil_append, hgt2, if_true]
    exact ⟨trivial, hcalls⟩
  · intro hle
    have hle2 : ¬ (baseImage.Spec.Layers.length + newLayers.length > maxLayerDeep) := by
      simp only [maxLayerDeep]; omega
    simp only [NewBuildImage, h0, h1, h2, h3, hl, hb, List.nil_append, hle2, if_false]
    cases env.GetLayerMountInfo baseImage.Spec.Layers buildType <;> exact ⟨rfl, rfl⟩

theorem newBuildImage_depth_witness :
    (NewBuildImage (sampleBuildEnv 129) sampleCommon "Kubefile" "lite").2
        = .error (.error "current number of layers exceeds 128 layers") ∧
      (NewBuildImage (sampleBuildEnv 128) sampleCommon "Kubefile" "lite").1
        = [.GetLayerMountInfo [] "lite"] :=
  ⟨((newBuildImage_depth (sampleBuildEnv 129) sampleCommon "Kubefile" "lite" _ _ _ _ []
      rfl rfl rfl rfl rfl rfl).1 (by simp)).1,
   ((newBuildImage_depth (sampleBuildEnv 128) sampleCommon "Kubefile" "lite" _ _ _ _ []
      rfl rfl rfl rfl rfl rfl).2 (by simp)).1⟩

/-! ## The loop of `ExecBuild` -/

theorem execLoop_executed (env : ExecEnv) (common : Common) (buildType : String) :
    ∀ (rest : List Layer) (st : ExecState),
      ∃ ext, (execLoop env common buildType rest st).executed = st.executed ++ ext ∧
        List.Pairwise CacheSticky ext ∧
        (∀ e ∈ ext, st.done.length ≤ e.1) ∧
        (st.execCtx.ContinueCache = false →
          (∀ e ∈ ext, e.2 = st.execCtx) ∧
            (execLoop env common buildType rest st).execCtx = st.execCtx) ∧
        (∀ e ∈ ext, e.2.ContinueCache = false →
          (execLoop env common buildType rest st).execCtx = e.2) := by
  intro rest
  induction rest with
  | nil =>
    intro st
    exact ⟨[], by simp [execLoop]⟩
  | cons layer rest ih =>
    intro st
    simp only [execLoop]
    split
    · obtain ⟨ext, h1, h2, h3, h4, h5⟩ := ih { st with done := st.done ++ [layer] }
      refine ⟨ext, h1, h2, ?_, h4, h5⟩
      intro e he
      have := h3 e he
      simp only [List.length_append, List.length_singleton] at this
      omega
    · split
      · exact ⟨[], by simp⟩
      · split
        · exact ⟨[(st.done.length, st.execCtx)], by simp⟩
        · rename_i out _
          have key : ∀ st1 : ExecState, st1.executed = st.executed ++ [(st.done.length, st.execCtx)] →
              st1.done.length = st.done.length + 1 →
              (st.execCtx.ContinueCache = false → st1.execCtx = st.execCtx) →
              ∃ ext, (execLoop env common buildType rest st1).executed = st.executed ++ ext ∧
                List.Pairwise CacheSticky ext ∧
                (∀ e ∈ ext, st.done.length ≤ e.1) ∧
                (st.execCtx.ContinueCache = false →
                  (∀ e ∈ ext, e.2 = st.execCtx) ∧
                    (execLoop env common buildType rest st1).execCtx = st.execCtx) ∧
                (∀ e ∈ ext, e.2.ContinueCache = false →
                  (execLoop env common buildType rest st1).execCtx = e.2) := by
            intro st1 hex hdone hctx
            obtain ⟨ext, h1, h2, h3, h4, h8⟩ := ih st1
            refine ⟨(st.done.length, st.execCtx) :: ext, ?_, ?_, ?_, ?_, ?_⟩
            · rw [h1, hex]; simp
            · refine List.Pairwise.cons ?_ h2
              intro b hb
              refine ⟨?_, ?_⟩
              · have := h3 b hb
                simp only
                omega
              · intro hcc
                have h5 := hctx hcc
                have h6 := (h4 (by rw [h5]; exact hcc)).1 b hb
                rw [h6, h5]
            · intro e he
              rcases List.mem_cons.mp he with rfl | he
              · exact Nat.le_refl _
              · have := h3 e he
                omega
            · intro hcc
              have h5 := hctx hcc
              obtain ⟨h6, h7⟩ := h4 (by rw [h5]; exact hcc)
              refine ⟨?_, by rw [h7, h5]⟩
              intro e he
              rcases List.mem_cons.mp he with rfl | he
              · rfl
              · rw [h6 e he, h5]
            · intro e he hcc
              rcases List.mem_cons.mp he with rfl | he
              · have h5 := hctx hcc
                rw [(h4 (by rw [h5]; exact hcc)).2, h5]
              · exact h8 e he hcc
          split
          · apply key
            · rfl
            · simp
            · intro hcc; simp [hcc]
          · apply key
            · rfl
            · simp
            · intro hcc; simp [hcc]

/-- Claim C3. Prefix-only caching in `ExecBuild`: whatever `NewInstruction` and the
instructions' `Exec` return, the calls of `inst.Exec` are logged in increasing
directive order, and once a call is handed an exec context with `ContinueCache`
false, every later call of the same build is handed that same exec context:
`ContinueCache` is still false and `ParentID` is unchanged, even if an output
in between reported `ContinueCache = true`. The final exec context obeys the
same rule. -/
theorem execBuild_prefix_only_caching (env : ExecEnv) (common : Common) (b : BuildImage)
    (ctx : Context) :
    List.Pairwise
        (fun x y : Nat × ExecContext =>
          x.1 < y.1 ∧ (x.2.ContinueCache = false →
            y.2.ContinueCache = false ∧ y.2.ParentID = x.2.ParentID))
        (ExecBuild env common b ctx).executed ∧
      ((initExecContext env b ctx).ContinueCache = false →
        ∀ e ∈ (ExecBuild env common b ctx).executed,
          e.2.ContinueCache = false ∧ e.2.ParentID = (initExecContext env b ctx).ParentID) ∧
      ∀ e ∈ (ExecBuild env common b ctx).executed, e.2.ContinueCache = false →
        (ExecBuild env common b ctx).execCtx.ContinueCache = false ∧
          (ExecBuild env common b ctx).execCtx.ParentID = e.2.ParentID := by
  obtain ⟨ext, h1, h2, -, h4, h5⟩ := execLoop_executed env common b.BuildType b.NewLayers
    { execCtx := initExecContext env b ctx, baseLayers := b.BaseLayers, done := [],
      created := [], executed := [], outputs := [] }
  simp only [List.nil_append] at h1
  unfold ExecBuild
  rw [h1]
  refine ⟨?_, ?_, ?_⟩
  · refine List.Pairwise.imp ?_ h2
    intro x y hxy
    refine ⟨hxy.1, fun hcc => ?_⟩
    rw [hxy.2 hcc]
    exact ⟨hcc, rfl⟩
  · intro hcc e he
    rw [(h4 hcc).1 e he]
    exact ⟨hcc, rfl⟩
  · intro e he hcc
    rw [h5 e he hcc]
    exact ⟨hcc, rfl⟩

theorem layerKept_refl (common : Common) (buildType : String) (l : Layer) :
    LayerKept common buildType l l := ⟨rfl, rfl, fun _ => rfl⟩

theorem forall2_layerKept_refl (common : Common) (buildType : String) (ls : List Layer) :
    List.Forall₂ (LayerKept common buildType) ls ls := by
  induction ls with
  | nil => exact List.Forall₂.nil
  | cons l ls ih => exact List.Forall₂.cons (layerKept_refl common buildType l) ih

theorem execInv_cons (common : Common) (buildType : String) (layer l1 : Layer)
    (rest : List Layer) (st st1 : ExecState) (r : ExecResult)
    (c0 : List (Nat × InstructionContext)) (x0 : List (Nat × ExecContext))
    (o0 : List (Nat × Out))
    (hdone : st1.done = st.done ++ [l1])
    (hbase : st1.baseLayers = st.baseLayers ++ [l1].filter (keptInChain common buildType))
    (hc : st1.created = st.created ++ c0) (hx : st1.executed = st.executed ++ x0)
    (ho : st1.outputs = st.outputs ++ o0)
    (hkept : LayerKept common buildType layer l1)
    (hc0 : ∀ e ∈ c0, e = (st.done.length, { BaseLayers := st.baseLayers, CurrentLayer := layer }) ∧
      runsInstruction common buildType layer = true)
    (hx0 : ∀ x ∈ x0, x.1 = st.done.length ∧ runsInstruction common buildType layer = true)
    (ho0 : ∀ o ∈ o0, o.1 = st.done.length ∧ runsInstruction common buildType layer = true ∧
      l1 = { layer with ID := o.2.LayerID })
    (hrun : runsInstruction common buildType layer = true → ∃ out, (st.done.length, out) ∈ o0)
    (hinv : ExecInv common buildType rest st1 r) :
    ExecInv common buildType (layer :: rest) st r := by
  obtain ⟨tail, cext, xext, oext, h1, h2, h3, h4, h5, h6, h7, h8, h9⟩ := hinv
  have hlen : st1.done.length = st.done.length + 1 := by rw [hdone]; simp
  refine ⟨l1 :: tail, c0 ++ cext, x0 ++ xext, o0 ++ oext, ?_, ?_, ?_, ?_, ?_, ?_, ?_, ?_, ?_⟩
  · rw [h1, hdone]; simp
  · rw [h2, hc]; simp
  · rw [h3, hx]; simp
  · rw [h4, ho]; simp
  · exact List.Forall₂.cons hkept h5
  · intro e he
    rcases List.mem_append.mp he with he | he
    · obtain ⟨rfl, hr⟩ := hc0 e he
      exact ⟨0, rfl, by simp, hr, by simp, fun j hj => absurd hj (Nat.not_lt_zero j)⟩
    · obtain ⟨k, hk1, hk2, hk3, hk4, hk5⟩ := h6 e he
      refine ⟨k + 1, by omega, by simpa using hk2, hk3, ?_, ?_⟩
      · rw [hk4, hbase]
        simp only [List.take_succ_cons, List.filter_cons, List.filter_nil, List.append_assoc]
        split <;> simp
      · intro j hj l hl hr
        cases j with
        | zero =>
          simp only [List.getElem?_cons_zero, Option.some.injEq] at hl
          subst hl
          obtain ⟨out, hout⟩ := hrun hr
          exact ⟨out, List.mem_append_left _ hout⟩
        | succ j =>
          simp only [List.getElem?_cons_succ] at hl
          obtain ⟨out, hout⟩ := hk5 j (by omega) l hl hr
          refine ⟨out, List.mem_append_right _ ?_⟩
          have : st.done.length + (j + 1) = st1.done.length + j := by omega
          rw [this]; exact hout
  · intro x hx'
    rcases List.mem_append.mp hx' with hx' | hx'
    · obtain ⟨hx1, hr⟩ := hx0 x hx'
      exact ⟨0, layer, hx1, by simp, hr⟩
    · obtain ⟨k, l, hk1, hk2, hk3⟩ := h7 x hx'
      exact ⟨k + 1, l, by omega, by simpa using hk2, hk3⟩
  · intro o ho'
    rcases List.mem_append.mp ho' with ho' | ho'
    · obtain ⟨ho1, hr, hl1⟩ := ho0 o ho'
      exact ⟨0, layer, ho1, by simp, hr, by simp [hl1]⟩
    · obtain ⟨k, l, hk1, hk2, hk3, hk4⟩ := h8 o ho'
      exact ⟨k + 1, l, by omega, by simpa using hk2, hk3, by simpa using hk4⟩
  · intro herr
    rw [h9 herr, hbase]
    simp only [List.filter_cons, List.filter_nil, List.append_assoc]
    split <;> simp

theorem execLoop_inv (env : ExecEnv) (common : Common) (buildType : String) :
    ∀ (rest : List Layer) (st : ExecState),
      ExecInv common buildType rest st (execLoop env common buildType rest st) := by
  intro rest
  induction rest with
  | nil =>
    intro st
    exact ⟨[], [], [], [], by simp [execLoop]⟩
  | cons layer rest ih =>
    intro st
    simp only [execLoop]
    split
    · rename_i hskip
      have hr : runsInstruction common buildType layer = false := by
        simp [runsInstruction, hskip.1, hskip.2]
      refine execInv_cons common buildType layer layer rest st _ _ [] [] [] ?_ ?_ ?_ ?_ ?_
        (layerKept_refl _ _ _) ?_ ?_ ?_ ?_ (ih _)
      · rfl
      · simp [keptInChain, hr]
      · simp
      · simp
      · simp
      · simp
      · simp
      · simp
      · simp [hr]
    · rename_i hrunp
      have hr : runsInstruction common buildType layer = true := by
        simp only [runsInstruction, Bool.not_eq_true', Bool.and_eq_false_imp, decide_eq_true_eq,
          decide_eq_false_iff_not]
        intro h1 h2
        exact hrunp ⟨h1, h2⟩
      split
      · refine ⟨layer :: rest, [(st.done.length, ⟨st.baseLayers, layer⟩)], [], [], rfl, rfl,
          by simp, by simp, forall2_layerKept_refl _ _ _, ?_, by simp, by simp, by simp⟩
        intro e he
        simp only [List.mem_singleton] at he
        subst he
        exact ⟨0, rfl, by simp, hr, by simp, fun j hj => absurd hj (Nat.not_lt_zero j)⟩
      · split
        · refine ⟨layer :: rest, [(st.done.length, ⟨st.baseLayers, layer⟩)],
            [(st.done.length, st.execCtx)], [], rfl, rfl, rfl, by simp,
            forall2_layerKept_refl _ _ _, ?_, ?_, by simp, by simp⟩
          · intro e he
            simp only [List.mem_singleton] at he
            subst he
            exact ⟨0, rfl, by simp, hr, by simp, fun j hj => absurd hj (Nat.not_lt_zero j)⟩
          · intro x hx
            simp only [List.mem_singleton] at hx
            subst hx
            exact ⟨0, layer, rfl, by simp, hr⟩
        · rename_i out _
          have hk : LayerKept common buildType layer { layer with ID := out.LayerID } :=
            ⟨rfl, rfl, fun h => by rw [hr] at h; cases h⟩
          have hrk : runsInstruction common buildType { layer with ID := out.LayerID } = true := hr
          split
          · rename_i hid
            refine execInv_cons common buildType layer { layer with ID := out.LayerID } rest st _ _
              [(st.done.length, ⟨st.baseLayers, layer⟩)] [(st.done.length, st.execCtx)]
              [(st.done.length, out)] rfl ?_ rfl rfl rfl hk ?_ ?_ ?_ ?_ (ih _)
            · simp [keptInChain, hid]
            · simp [hr]
            · simp [hr]
            · simp [hr]
            · intro _; exact ⟨out, by simp⟩
          · rename_i hid
            refine execInv_cons common buildType layer { layer with ID := out.LayerID } rest st _ _
              [(st.done.length, ⟨st.baseLayers, layer⟩)] [(st.done.length, st.execCtx)]
              [(st.done.length, out)] rfl ?_ rfl rfl rfl hk ?_ ?_ ?_ ?_ (ih _)
            · simp [keptInChain, hid, hrk]
            · simp [hr]
            · simp [hr]
            · simp [hr]
            · intro _; exact ⟨out, by simp⟩

theorem execLive_cons (env : ExecEnv) (common : Common) (buildType : String) (layer : Layer)
    (rest : List Layer) (st st1 : ExecState) (r : ExecResult)
    (c0 : List (Nat × InstructionContext)) (x0 : List (Nat × ExecContext))
    (o0 : List (Nat × Out))
    (hlen : st1.done.length = st.done.length + 1)
    (hc : st1.created = st.created ++ c0) (hx : st1.executed = st.executed ++ x0)
    (ho : st1.outputs = st.outputs ++ o0)
    (hp0 : List.Pairwise (fun a b : Nat × InstructionContext => a.1 < b.1) c0)
    (hc0 : ∀ c ∈ c0, c.1 = st.done.length)
    (ho0 : ∀ o ∈ o0, ∃ ic inst ctx, (o.1, ic) ∈ c0 ∧ (o.1, ctx) ∈ x0 ∧
      env.NewInstruction ic = .ok inst ∧ inst ctx = .ok o.2)
    (hrun : runsInstruction common buildType layer = true →
      ∃ ic out, (st.done.length, ic) ∈ c0 ∧ (st.done.length, out) ∈ o0)
    (hinv : ExecLive env common buildType rest st1 r) :
    ExecLive env common buildType (layer :: rest) st r := by
  obtain ⟨cext, xext, oext, h1, h2, h3, h4, h5, h6, h7, h8⟩ := hinv
  have hidx : ∀ j, st1.done.length + j = st.done.length + (j + 1) := by
    intro j; omega
  have hcover : ∀ j l, (layer :: rest)[j]? = some l → runsInstruction common buildType l = true →
      (∀ j1 l1, j = j1 + 1 → rest[j1]? = some l1 → runsInstruction common buildType l1 = true →
        ∃ ic out, (st1.done.length + j1, ic) ∈ cext ∧ (st1.done.length + j1, out) ∈ oext) →
      ∃ ic out, (st.done.length + j, ic) ∈ c0 ++ cext ∧ (st.done.length + j, out) ∈ o0 ++ oext := by
    intro j l hl hr hrec
    cases j with
    | zero =>
      simp only [List.getElem?_cons_zero, Option.some.injEq] at hl
      subst hl
      obtain ⟨ic, out, hic, hout⟩ := hrun hr
      exact ⟨ic, out, List.mem_append_left _ hic, List.mem_append_left _ hout⟩
    | succ j =>
      simp only [List.getElem?_cons_succ] at hl
      obtain ⟨ic, out, hic, hout⟩ := hrec j l rfl hl hr
      rw [hidx] at hic hout
      exact ⟨ic, out, List.mem_append_right _ hic, List.mem_append_right _ hout⟩
  refine ⟨c0 ++ cext, x0 ++ xext, o0 ++ oext, ?_, ?_, ?_, ?_, ?_, ?_, ?_, ?_⟩
  · rw [h1, hc]; simp
  · rw [h2, hx]; simp
  · rw [h3, ho]; simp
  · rw [List.pairwise_append]
    refine ⟨hp0, h4, ?_⟩
    intro a ha b hb
    have := hc0 a ha
    have := h5 b hb
    omega
  · intro c hcm
    rcases List.mem_append.mp hcm with hcm | hcm
    · exact Nat.le_of_eq (hc0 c hcm).symm
    · have := h5 c hcm
      omega
  · intro o hom
    rcases List.mem_append.mp hom with hom | hom
    · obtain ⟨ic, inst, ctx, a1, a2, a3, a4⟩ := ho0 o hom
      exact ⟨ic, inst, ctx, List.mem_append_left _ a1, List.mem_append_left _ a2, a3, a4⟩
    · obtain ⟨ic, inst, ctx, a1, a2, a3, a4⟩ := h6 o hom
      exact ⟨ic, inst, ctx, List.mem_append_right _ a1, List.mem_append_right _ a2, a3, a4⟩
  · intro herr k l hl hr
    exact hcover k l hl hr (fun j1 l1 _ hl1 hr1 => h7 herr j1 l1 hl1 hr1)
  · intro err herr
    obtain ⟨k, l, ic, b1, b2, b3, b4, b5, b6⟩ := h8 err herr
    refine ⟨k + 1, l, ic, by simpa using b1, b2, ?_, ?_, ?_, ?_⟩
    · rw [← hidx]; exact List.mem_append_right _ b3
    · rcases b4 with b4 | ⟨inst, ctx, b41, b42, b43⟩
      · exact Or.inl b4
      · exact Or.inr ⟨inst, ctx, b41, by rw [← hidx]; exact List.mem_append_right _ b42, b43⟩
    · intro c hcm
      rcases List.mem_append.mp hcm with hcm | hcm
      · have := hc0 c hcm
        omega
      · have := b5 c hcm
        omega
    · intro j hj l1 hl1 hr1
      exact hcover j l1 hl1 hr1 (fun j1 l2 hj1 hl2 hr2 => b6 j1 (by omega) l2 hl2 hr2)

theorem execLoop_live (env : ExecEnv) (common : Common) (buildType : String) :
    ∀ (rest : List Layer) (st : ExecState),
      ExecLive env common buildType rest st (execLoop env common buildType rest st) := by
  intro rest
  induction rest with
  | nil =>
    intro st
    exact ⟨[], [], [], by simp [execLoop]⟩
  | cons layer rest ih =>
    intro st
    simp only [execLoop]
    split
    · rename_i hskip
      have hr : runsInstruction common buildType layer = false := by
        simp [runsInstruction, hskip.1, hskip.2]
      refine execLive_cons env common buildType layer rest st _ _ [] [] [] ?_ ?_ ?_ ?_
        List.Pairwise.nil ?_ ?_ ?_ (ih _)
      · simp
      · simp
      · simp
      · simp
      · simp
      · simp
      · simp [hr]
    · rename_i hrunp
      have hr : runsInstruction common buildType layer = true := by
        simp only [runsInstruction, Bool.not_eq_true', Bool.and_eq_false_imp, decide_eq_true_eq,
          decide_eq_false_iff_not]
        intro h1 h2
        exact hrunp ⟨h1, h2⟩
      split
      · rename_i err hnew
        refine ⟨[(st.done.length, ⟨st.baseLayers, layer⟩)], [], [], rfl, by simp, by simp,
          by simp, by simp, by simp, by simp, ?_⟩
        intro e he
        simp only [Option.some.injEq] at he
        subst he
        exact ⟨0, layer, ⟨st.baseLayers, layer⟩, by simp, hr, by simp, Or.inl hnew, by simp,
          fun j hj => absurd hj (Nat.not_lt_zero j)⟩
      · rename_i inst hnew
        split
        · rename_i err hexec
          refine ⟨[(st.done.length, ⟨st.baseLayers, layer⟩)], [(st.done.length, st.execCtx)], [],
            rfl, rfl, by simp, by simp, by simp, by simp, by simp, ?_⟩
          intro e he
          simp only [Option.some.injEq] at he
          subst he
          exact ⟨0, layer, ⟨st.baseLayers, layer⟩, by simp, hr, by simp,
            Or.inr ⟨inst, st.execCtx, hnew, by simp, hexec⟩, by simp,
            fun j hj => absurd hj (Nat.not_lt_zero j)⟩
        · rename_i out hexec
          have key : ∀ st1 : ExecState,
              st1.done.length = st.done.length + 1 →
              st1.created = st.created ++ [(st.done.length, ⟨st.baseLayers, layer⟩)] →
              st1.executed = st.executed ++ [(st.done.length, st.execCtx)] →
              st1.outputs = st.outputs ++ [(st.done.length, out)] →
              ExecLive env common buildType (layer :: rest) st
                (execLoop env common buildType rest st1) := by
            intro st1 hlen hc hx ho
            refine execLive_cons env common buildType layer rest st st1 _
              [(st.done.length, ⟨st.baseLayers, layer⟩)] [(st.done.length, st.execCtx)]
              [(st.done.length, out)] hlen hc hx ho (List.pairwise_singleton _ _) ?_ ?_ ?_ (ih _)
            · simp
            · intro o hom
              simp only [List.mem_singleton] at hom
              subst hom
              exact ⟨⟨st.baseLayers, layer⟩, inst, st.execCtx, by simp, by simp, hnew, hexec⟩
            · intro _
              exact ⟨⟨st.baseLayers, layer⟩, out, by simp, by simp⟩
          split
          · exact key _ (by simp) rfl rfl rfl
          · exact key _ (by simp) rfl rfl rfl

theorem forall2_getElem {α β : Type} {R : α → β → Prop} {l1 : List α} {l2 : List β}
    (h : List.Forall₂ R l1 l2) :
    ∀ (i : Nat) (a : α), l1[i]? = some a → ∃ b, l2[i]? = some b ∧ R a b := by
  induction h with
  | nil => intro i a ha; simp at ha
  | cons hab _ ih =>
    intro i a ha
    cases i with
    | zero =>
      simp only [List.getElem?_cons_zero, Option.some.injEq] at ha
      subst ha
      exact ⟨_, by simp, hab⟩
    | succ i =>
      simp only [List.getElem?_cons_succ] at ha
      obtain ⟨b, hb, hr⟩ := ih i a ha
      exact ⟨b, by simpa using hb, hr⟩

theorem forall2_layerKept_map (common : Common) (buildType : String) {l1 l2 : List Layer}
    (h : List.Forall₂ (LayerKept common buildType) l1 l2) :
    l2.map (fun l => (l.Type_, l.Value)) = l1.map (fun l => (l.Type_, l.Value)) := by
  induction h with
  | nil => rfl
  | cons hab _ ih =>
    simp only [List.map_cons, ih, hab.1, hab.2.1]

theorem execBuild_inv (env : ExecEnv) (common : Common) (b : BuildImage) (ctx : Context) :
    ExecInv common b.BuildType b.NewLayers
      { execCtx := initExecContext env b ctx, baseLayers := b.BaseLayers, done := [],
        created := [], executed := [], outputs := [] }
      (ExecBuild env common b ctx) :=
  execLoop_inv env common b.BuildType b.NewLayers _

/-- Claim C4. Lite-build skip in `ExecBuild`: in a lite build, for a new layer at index
`i` whose type is the runtime command kind, no call of `NewInstruction` and no
call or output of `inst.Exec` is logged for index `i`; the layer is left in the
slice exactly as it entered (so its ID stays empty when it entered empty); the
loop passes over it with the exec context, the base chain and the logs unchanged;
and no layer of that kind is among the layers appended to the base layers in
the chain handed to any instruction. -/
theorem execBuild_lite_skip (env : ExecEnv) (common : Common) (b : BuildImage) (ctx : Context)
    (i : Nat) (layer : Layer) (hb : b.BuildType = common.LiteBuild)
    (hi : b.NewLayers[i]? = some layer) (ht : layer.Type_ = common.CMDCOMMAND) :
    (∀ e ∈ (ExecBuild env common b ctx).created, e.1 ≠ i) ∧
    (∀ x ∈ (ExecBuild env common b ctx).executed, x.1 ≠ i) ∧
    (∀ o ∈ (ExecBuild env common b ctx).outputs, o.1 ≠ i) ∧
    (ExecBuild env common b ctx).newLayers[i]? = some layer ∧
    (∀ (rest : List Layer) (st : ExecState),
      execLoop env common b.BuildType (layer :: rest) st
        = execLoop env common b.BuildType rest { st with done := st.done ++ [layer] }) ∧
    (∀ e ∈ (ExecBuild env common b ctx).created,
      ∃ extra, e.2.BaseLayers = b.BaseLayers ++ extra ∧
        ∀ l ∈ extra, l.Type_ ≠ common.CMDCOMMAND) := by
  obtain ⟨tail, cext, xext, oext, h1, h2, h3, h4, h5, h6, h7, h8, -⟩ :=
    execBuild_inv env common b ctx
  simp only [List.nil_append, List.length_nil, Nat.zero_add] at h1 h2 h3 h4 h6 h7 h8
  have hr : runsInstruction common b.BuildType layer = false := by
    simp [runsInstruction, hb, ht]
  rw [h1, h2, h3, h4]
  refine ⟨?_, ?_, ?_, ?_, ?_, ?_⟩
  · intro e he hei
    obtain ⟨k, hk1, hk2, hk3, -⟩ := h6 e he
    rw [← hk1, hei, hi] at hk2
    simp only [Option.some.injEq] at hk2
    rw [← hk2, hr] at hk3
    cases hk3
  · intro x hx hxi
    obtain ⟨k, l, hk1, hk2, hk3⟩ := h7 x hx
    rw [← hk1, hxi, hi] at hk2
    simp only [Option.some.injEq] at hk2
    rw [← hk2, hr] at hk3
    cases hk3
  · intro o ho hoi
    obtain ⟨k, l, hk1, hk2, hk3, -⟩ := h8 o ho
    rw [← hk1, hoi, hi] at hk2
    simp only [Option.some.injEq] at hk2
    rw [← hk2, hr] at hk3
    cases hk3
  · obtain ⟨t, ht1, ht2⟩ := forall2_getElem h5 i layer hi
    rw [ht1, ht2.2.2 hr]
  · intro rest st
    simp [execLoop, hb, ht]
  · intro e he
    obtain ⟨k, -, -, -, hk4, -⟩ := h6 e he
    refine ⟨_, hk4, ?_⟩
    intro l hl hty
    have hkeep := (List.mem_filter.mp hl).2
    simp [keptInChain, runsInstruction, hb, hty] at hkeep

theorem execBuild_lite_skip_witness :
    sampleBuild.BuildType = sampleCommon.LiteBuild ∧
      (ExecBuild sampleExecEnv sampleCommon sampleBuild { BuildContext := ".", UseCache := true }).newLayers[1]?
        = some { ID := "", Type_ := "CMD", Value := "ls" } :=
  ⟨rfl, (execBuild_lite_skip sampleExecEnv sampleCommon sampleBuild
    { BuildContext := ".", UseCache := true } 1 _ rfl rfl rfl).2.2.2.1⟩

theorem execBuild_live (env : ExecEnv) (common : Common) (b : BuildImage) (ctx : Context) :
    ExecLive env common b.BuildType b.NewLayers
      { execCtx := initExecContext env b ctx, baseLayers := b.BaseLayers, done := [],
        created := [], executed := [], outputs := [] }
      (ExecBuild env common b ctx) :=
  execLoop_live env common b.BuildType b.NewLayers _

/-- Claim C5. Running base chain in `ExecBuild`: the slice of new layers keeps its
length and every entry's type and value; the base layers handed to the
instruction created at index `i` are the base layers of the build followed, in
order, by the layers before `i` of the final slice for which an instruction ran
and whose ID is not empty, and the current layer handed over is the new layer
at `i`; every layer before `i` for which an instruction runs has a logged
output; every logged output of index `j` belongs to a layer for which an
instruction runs and the final slice holds that layer at `j` with the output's
LayerID as ID (so an empty LayerID keeps the layer out of the chain but in the
slice); and a build that returns no error ends with the chain built the same way
from the whole slice. The instructions are really created and run: they are
created in increasing index order, at most one for an index; every logged output
is what the instruction created at its index returned when executed; a build
that returns no error has created and executed an instruction for every layer
for which one runs; and a build that returns an error has a layer for which an
instruction runs and whose instruction was created, where the creation or the
execution returned that error, with no instruction created after it and an
instruction created and executed for every earlier layer for which one runs. -/
theorem execBuild_base_chain (env : ExecEnv) (common : Common) (b : BuildImage) (ctx : Context) :
    (ExecBuild env common b ctx).newLayers.length = b.NewLayers.length ∧
    (ExecBuild env common b ctx).newLayers.map (fun l => (l.Type_, l.Value))
      = b.NewLayers.map (fun l => (l.Type_, l.Value)) ∧
    (∀ e ∈ (ExecBuild env common b ctx).created,
      e.2.BaseLayers = b.BaseLayers ++
          ((ExecBuild env common b ctx).newLayers.take e.1).filter (keptInChain common b.BuildType) ∧
        b.NewLayers[e.1]? = some e.2.CurrentLayer ∧
        ∀ j, j < e.1 → ∀ l, b.NewLayers[j]? = some l →
          runsInstruction common b.BuildType l = true →
          ∃ out, (j, out) ∈ (ExecBuild env common b ctx).outputs) ∧
    (∀ o ∈ (ExecBuild env common b ctx).outputs,
      ∃ l, b.NewLayers[o.1]? = some l ∧ runsInstruction common b.BuildType l = true ∧
        (ExecBuild env common b ctx).newLayers[o.1]? = some { l with ID := o.2.LayerID }) ∧
    ((ExecBuild env common b ctx).err = none →
      (ExecBuild env common b ctx).baseLayers = b.BaseLayers ++
        (ExecBuild env common b ctx).newLayers.filter (keptInChain common b.BuildType)) ∧
    List.Pairwise (fun x y : Nat × InstructionContext => x.1 < y.1)
      (ExecBuild env common b ctx).created ∧
    (∀ o ∈ (ExecBuild env common b ctx).outputs,
      ∃ ic inst ectx, (o.1, ic) ∈ (ExecBuild env common b ctx).created ∧
        (o.1, ectx) ∈ (ExecBuild env common b ctx).executed ∧
        env.NewInstruction ic = .ok inst ∧ inst ectx = .ok o.2) ∧
    ((ExecBuild env common b ctx).err = none →
      ∀ i l, b.NewLayers[i]? = some l → runsInstruction common b.BuildType l = true →
        ∃ ic out, (i, ic) ∈ (ExecBuild env common b ctx).created ∧
          (i, out) ∈ (ExecBuild env common b ctx).outputs) ∧
    (∀ err, (ExecBuild env common b ctx).err = some err →
      ∃ k l ic, b.NewLayers[k]? = some l ∧ runsInstruction common b.BuildType l = true ∧
        (k, ic) ∈ (ExecBuild env common b ctx).created ∧
        (env.NewInstruction ic = .error err ∨
          ∃ inst ectx, env.NewInstruction ic = .ok inst ∧
            (k, ectx) ∈ (ExecBuild env common b ctx).executed ∧ inst ectx = .error err) ∧
        (∀ c ∈ (ExecBuild env common b ctx).created, c.1 ≤ k) ∧
        ∀ j, j < k → ∀ l, b.NewLayers[j]? = some l →
          runsInstruction common b.BuildType l = true →
          ∃ ic out, (j, ic) ∈ (ExecBuild env common b ctx).created ∧
            (j, out) ∈ (ExecBuild env common b ctx).outputs) := by
  obtain ⟨tail, cext, xext, oext, h1, h2, h3, h4, h5, h6, h7, h8, h9⟩ :=
    execBuild_inv env common b ctx
  obtain ⟨cext1, xext1, oext1, g1, g2, g3, g4, -, g6, g7, g8⟩ := execBuild_live env common b ctx
  simp only [List.nil_append, List.length_nil, Nat.zero_add] at h1 h2 h3 h4 h6 h7 h8 h9
  simp only [List.nil_append, List.length_nil, Nat.zero_add] at g1 g2 g3 g6 g7 g8
  have ec : cext1 = cext := by rw [← g1, h2]
  have ex : xext1 = xext := by rw [← g2, h3]
  have eo : oext1 = oext := by rw [← g3, h4]
  subst ec ex eo
  refine ⟨?_, ?_, ?_, ?_, ?_, ?_, ?_, ?_, ?_⟩
  · rw [h1]; exact h5.length_eq.symm
  · rw [h1]; exact forall2_layerKept_map common b.BuildType h5
  · rw [h1, h2, h4]
    intro e he
    obtain ⟨k, hk1, hk2, -, hk4, hk5⟩ := h6 e he
    subst hk1
    exact ⟨hk4, hk2, hk5⟩
  · rw [h1, h4]
    intro o ho
    obtain ⟨k, l, hk1, hk2, hk3, hk4⟩ := h8 o ho
    subst hk1
    exact ⟨l, hk2, hk3, hk4⟩
  · rw [h1]
    intro herr
    exact h9 herr
  · rw [g1]; exact g4
  · rw [g1, g2, g3]; exact g6
  · rw [g1, g3]; exact g7
  · rw [g1, g2, g3]; exact g8

theorem execBuild_base_chain_witness :
    ((ExecBuild sampleExecEnv sampleCommon sampleBuild { BuildContext := ".", UseCache := true }).err
        = none ∧
      (ExecBuild sampleExecEnv sampleCommon sampleBuild
          { BuildContext := ".", UseCache := true }).created.map
          (fun e => (e.1, e.2.BaseLayers.map (fun l => l.ID), e.2.CurrentLayer.Value))
        = [(0, ["sha256:b0"], "a"), (2, ["sha256:b0", "sha256:a"], "echo hi"),
           (3, ["sha256:b0", "sha256:a"], "c")] ∧
      (ExecBuild sampleExecEnv sampleCommon sampleBuild
          { BuildContext := ".", UseCache := true }).baseLayers.map (fun l => l.ID)
        = ["sha256:b0", "sha256:a", "sha256:c"]) ∧
      List.Pairwise (fun x y : Nat × InstructionContext => x.1 < y.1)
        (ExecBuild sampleExecEnv sampleCommon sampleBuild
          { BuildContext := ".", UseCache := true }).created :=
  ⟨by decide, (execBuild_base_chain sampleExecEnv sampleCommon sampleBuild
    { BuildContext := ".", UseCache := true }).2.2.2.2.2.1⟩

/-! ## Collecting layers, differs, source digest, cache probe, blob service -/

/-- Claim C6. `collectLayers`: when registering the upper directory of the rootfs mount
succeeds with layer id `d`, the result is the new layers alone if `WithoutBase`
is set and the base layers followed by the new layers otherwise, followed by
exactly one rootfs-diff layer (type `BaseImageLayerType`, value
`RootfsLayerValue`, ID `d`) when `d` is not empty and by nothing when `d` is
empty; when registering fails, an error is returned and no layer list. -/
theorem collectLayers_spec (env : SaveEnv) (common : Common) (b : BuildImage) (opts : SaveOpts) :
    collectLayers env common b opts =
      match env.RegisterLayerForBuilder b.RootfsMountInfo.GetMountUpper with
      | .ok d =>
        .ok ((if opts.WithoutBase then b.NewLayers else b.BaseLayers ++ b.NewLayers) ++
          (if d = "" then []
           else [{ ID := d, Type_ := common.BaseImageLayerType, Value := common.RootfsLayerValue }]))
      | .error err =>
        .error ("failed to register layer, err: " ++ ("failed to register layer, err: " ++ err)) := by
  unfold collectLayers collectRootfsDiff genNewLayer
  cases h : env.RegisterLayerForBuilder b.RootfsMountInfo.GetMountUpper with
  | error err => simp [h]
  | ok d =>
    by_cases hd : d = ""
    · simp [h, hd]
    · simp [h, hd]

/-- Claim C7, the code at the failing input. With the registry differ failing and the
metadata differ succeeding, the interleaving in which both tasks assign the
shared `err` before either reads it back makes `checkDiff` return no error, and
`SaveBuildImage` then returns no error and calls `ImageStore.Save`; when the
registry task runs to its end first, `checkDiff` returns the differ's error and
nothing is saved. -/
theorem checkDiff_lost_error :
    sampleSaveEnv.RegistryProcess
        { TempTarget := "/tmp/m", TempUpper := "/tmp/n", LowLayers := [] }
        sampleSaveBuild.RootfsMountInfo = some "registry differ failed" ∧
      checkDiff sampleSaveEnv sampleSaveBuild [0, 1, 0, 1] = none ∧
      (SaveBuildImage sampleSaveEnv sampleCommon sampleSaveBuild "img" { WithoutBase := false }
        [0, 1, 0, 1]).err = none ∧
      (SaveBuildImage sampleSaveEnv sampleCommon sampleSaveBuild "img" { WithoutBase := false }
        [0, 1, 0, 1]).saves.length = 1 ∧
      checkDiff sampleSaveEnv sampleSaveBuild [0, 0, 1, 1] = some "registry differ failed" ∧
      (SaveBuildImage sampleSaveEnv sampleCommon sampleSaveBuild "img" { WithoutBase := false }
        [0, 0, 1, 1]).saves = [] := by
  decide

/-- Claim C8, the code at the failing input. In the build context `/ctx`, where the
pattern `*.txt` matches the single path `a.txt`, `GenerateSourceFilesDigest`
hashes the pattern joined to the root, which names no file, and returns that
error, while the digest of the matched path exists; no staging directory is made. -/
theorem generateSourceFilesDigest_single_match_pattern :
    sampleDigestEnv.ResolveWildcards () "/ctx" "*.txt" = .ok ["a.txt"] ∧
      GenerateSourceFilesDigest sampleDigestEnv () "/ctx" "*.txt"
        = ((), .error "lstat /ctx/*.txt: no such file or directory") ∧
      generateDigest sampleDigestEnv () (Join ["/ctx", "a.txt"]) = .ok "sha256:a" :=
  ⟨rfl, rfl, rfl⟩

theorem generateSourceFilesDigest_single {FS : Type} (env : DigestEnv FS) (fs : FS)
    (root src p : String) (h : env.ResolveWildcards fs root src = .ok [p]) :
    GenerateSourceFilesDigest env fs root src = (fs, generateDigest env fs (Join [root, src])) := by
  simp [GenerateSourceFilesDigest, h]

/-- Claim C9. `tryCache` reports a hit exactly when `Probe` succeeds and the cache
layer's `ChainID` of the parent succeeds, and then returns the id given by
`Probe` and the chain id given by `ChainID`; any error of `Probe` or of
`ChainID` gives the plain miss `(false, "", "")`. The result is always such a
triple: `tryCache` has no error result. -/
theorem tryCache_hit_iff {CL : Type} (env : CacheEnv CL) (parentID : ChainID) (layer : Layer)
    (srcFilesDgst : Digest) :
    ((tryCache env parentID layer srcFilesDgst).1 = true ↔
      ∃ id cid, env.Probe parentID (env.NewCacheLayer layer srcFilesDgst) = .ok id ∧
        env.ChainID (env.NewCacheLayer layer srcFilesDgst) parentID = .ok cid) ∧
    (∀ id cid, env.Probe parentID (env.NewCacheLayer layer srcFilesDgst) = .ok id →
      env.ChainID (env.NewCacheLayer layer srcFilesDgst) parentID = .ok cid →
      tryCache env parentID layer srcFilesDgst = (true, id, cid)) ∧
    (∀ err, env.Probe parentID (env.NewCacheLayer layer srcFilesDgst) = .error err →
      tryCache env parentID layer srcFilesDgst = (false, "", "")) ∧
    (∀ err, env.ChainID (env.NewCacheLayer layer srcFilesDgst) parentID = .error err →
      tryCache env parentID layer srcFilesDgst = (false, "", "")) := by
  unfold tryCache
  cases h1 : env.Probe parentID (env.NewCacheLayer layer srcFilesDgst) with
  | error e1 => simp [h1]
  | ok id =>
    cases h2 : env.ChainID (env.NewCacheLayer layer srcFilesDgst) parentID with
    | error e2 => simp [h1, h2]
    | ok cid => simp [h1, h2]

/-- Claim C10, the claim as stated fails. On the zero-value service, whose map
`descriptors` is nil, `Put` does not return a descriptor: the assignment to an
entry of the nil map panics. -/
theorem blobService_put_nil_map :
    blobService.Put sampleFromBytes { descriptors := none } "text/plain" [1, 2]
      = .error (.panic "assignment to entry in nil map") :=
  rfl

/-- Claim C10, amended. Idempotent registration in `blobService` with an
allocated map: `Put(m, p)` returns the descriptor with the digest of `p`, the
length of `p` and media type `m`, and leaves an allocated map; afterwards `Stat`
of that digest returns exactly that descriptor; a second `Put(m, p)` returns the
same descriptor and leaves the map as the first left it, so the number of stored
descriptors does not grow; and `Stat` of any other digest is what it was before
the `Put`. -/
theorem blobService_put_idempotent (FromBytes : List UInt8 → Digest) (bs : blobService)
    (dm : AList (fun _ : Digest => Descriptor)) (m : String) (p : List UInt8)
    (halloc : bs.descriptors = some dm) :
    ∃ (bs1 : blobService) (dm1 : AList (fun _ : Digest => Descriptor)),
      bs.Put FromBytes m p
        = .ok (bs1, { Digest := FromBytes p, Size := Int.ofNat p.length, MediaType := m }) ∧
      bs1.descriptors = some dm1 ∧
      bs1.Stat (FromBytes p)
        = .ok { Digest := FromBytes p, Size := Int.ofNat p.length, MediaType := m } ∧
      (∃ (bs2 : blobService) (dm2 : AList (fun _ : Digest => Descriptor)),
        bs1.Put FromBytes m p
          = .ok (bs2, { Digest := FromBytes p, Size := Int.ofNat p.length, MediaType := m }) ∧
        bs2.descriptors = some dm2 ∧ dm2 = dm1 ∧
        dm2.entries.length = dm1.entries.length) ∧
      ∀ dgst, dgst ≠ FromBytes p → bs1.Stat dgst = bs.Stat dgst := by
  refine ⟨{ descriptors := some (dm.insert (FromBytes p)
      { Digest := FromBytes p, Size := Int.ofNat p.length, MediaType := m }) }, _, ?_, rfl, ?_, ?_, ?_⟩
  · simp [blobService.Put, halloc]
  · simp [blobService.Stat, AList.lookup_insert]
  · refine ⟨_, _, rfl, rfl, ?_, ?_⟩
    · exact AList.insert_insert _
    · rw [AList.insert_insert]
  · intro dgst hne
    simp [blobService.Stat, halloc, AList.lookup_insert_ne hne]

theorem blobService_put_idempotent_witness :
    (blobService.mk (some ∅)).descriptors = some ∅ ∧
      ∃ (bs1 : blobService) (dm1 : AList (fun _ : Digest => Descriptor)),
        (blobService.mk (some ∅)).Put sampleFromBytes "text/plain" samplePayload
          = .ok (bs1, sampleDescriptor) ∧
        bs1.descriptors = some dm1 ∧
        bs1.Stat (sampleFromBytes samplePayload)
          = .ok sampleDescriptor ∧
        (∃ (bs2 : blobService) (dm2 : AList (fun _ : Digest => Descriptor)),
          bs1.Put sampleFromBytes "text/plain" samplePayload
            = .ok (bs2, sampleDescriptor) ∧
          bs2.descriptors = some dm2 ∧ dm2 = dm1 ∧
          dm2.entries.length = dm1.entries.length) ∧
        ∀ dgst, dgst ≠ sampleFromBytes samplePayload →
          bs1.Stat dgst = (blobService.mk (some ∅)).Stat dgst :=
  ⟨rfl, blobService_put_idempotent sampleFromBytes (blobService.mk (some ∅)) ∅ "text/plain"
    samplePayload rfl⟩

/-! ## Depth limit of `GetImageAllLayers` and layer paths -/

/-- Claim C11, the code at the failing input. `GetImageAllLayers` leaves its loop
at a scratch image before it compares the length with 128: a scratch image with
129 layers after its from layer gives all 129 layers and no error, and an image
with 100 layers on a scratch base image with 100 layers gives 200 layers and no
error; the error "current layer is exceed 128 layers" comes only when more than
128 layers are held and a further parent image is still to be read. -/
theorem getImageAllLayers_unchecked_at_scratch :
    (GetImageAllLayers sampleGetImage sampleCommon 1 (sampleImage "scratch" 129)).map
        (fun r => r.map List.length) = some (.ok 129) ∧
      (GetImageAllLayers sampleGetImage sampleCommon 2 (sampleImage "base" 100)).map
        (fun r => r.map List.length) = some (.ok 200) ∧
      GetImageAllLayers sampleGetImage sampleCommon 2 (sampleImage "base" 129)
        = some (.error (.error "current layer is exceed 128 layers")) := by
  refine ⟨?_, ?_, ?_⟩
  · simp [GetImageAllLayers, getImageAllLayersLoop, sampleImage, sampleCommon, Except.map]
  · simp [GetImageAllLayers, getImageAllLayersLoop, sampleImage, sampleCommon, sampleGetImage,
      Except.map]
  · simp [GetImageAllLayers, getImageAllLayersLoop, sampleImage, sampleCommon]

theorem hexPart_split (l : List Char) (h : ':' ∈ l) :
    ∃ a b, l = a ++ ':' :: b ∧ ':' ∉ a ∧ (l.dropWhile (fun c => c != ':')).drop 1 = b := by
  induction l with
  | nil => simp at h
  | cons c t ih =>
    by_cases hc : c = ':'
    · subst hc
      exact ⟨[], t, rfl, by simp, by simp [List.dropWhile]⟩
    · have ht : ':' ∈ t := by
        rcases List.mem_cons.mp h with h | h
        · exact absurd h.symm hc
        · exact h
      obtain ⟨a, b, hab, ha, hb⟩ := ih ht
      refine ⟨c :: a, b, by rw [hab]; rfl, ?_, ?_⟩
      · intro hm
        rcases List.mem_cons.mp hm with h1 | h1
        · exact hc h1.symm
        · exact ha h1
      · have : (c != ':') = true := by simpa using hc
        simp only [List.dropWhile, this]
        exact hb

theorem getBaseLayersPathLoop_ok (common : Common) (layers : List Layer)
    (hwf : ∀ l ∈ layers, l.ID ≠ "" → ':' ∈ l.ID.data) :
    ∀ acc : List String,
      getBaseLayersPathLoop common layers acc
        = .ok (acc ++ (layers.filter (fun l => l.ID != "")).map
            (fun l => Join [common.DefaultLayerDir, hexPart l.ID])) := by
  induction layers with
  | nil => intro acc; simp [getBaseLayersPathLoop]
  | cons l ls ih =>
    intro acc
    have ih1 := ih (fun x hx => hwf x (List.mem_cons_of_mem _ hx))
    by_cases h : l.ID = ""
    · simp [getBaseLayersPathLoop, h, ih1]
    · have hc := hwf l (List.mem_cons_self _ _) h
      simp [getBaseLayersPathLoop, h, Hex, hc, ih1]

theorem getBaseLayersPathLoop_panic (common : Common) (layers : List Layer) :
    (∃ l ∈ layers, l.ID ≠ "" ∧ ':' ∉ l.ID.data) →
      ∀ acc : List String, ∃ msg, getBaseLayersPathLoop common layers acc = .error (.panic msg) := by
  induction layers with
  | nil => intro h; simp at h
  | cons l ls ih =>
    intro h acc
    by_cases h0 : l.ID = ""
    · have : ∃ x ∈ ls, x.ID ≠ "" ∧ ':' ∉ x.ID.data := by
        obtain ⟨x, hx, h1, h2⟩ := h
        rcases List.mem_cons.mp hx with rfl | hx
        · exact absurd h0 h1
        · exact ⟨x, hx, h1, h2⟩
      simpa [getBaseLayersPathLoop, h0] using ih this acc
    · by_cases hc : ':' ∈ l.ID.data
      · have : ∃ x ∈ ls, x.ID ≠ "" ∧ ':' ∉ x.ID.data := by
          obtain ⟨x, hx, h1, h2⟩ := h
          rcases List.mem_cons.mp hx with rfl | hx
          · exact absurd hc h2
          · exact ⟨x, hx, h1, h2⟩
        simpa [getBaseLayersPathLoop, h0, Hex, hc] using ih this _
      · exact ⟨"no separator in digest " ++ l.ID, by simp [getBaseLayersPathLoop, h0, Hex, hc]⟩

/-- Claim C13, the claim as stated fails. For the layer list with the single
layer of ID `abc`, which is not empty and holds no `:`, `GetBaseLayersPath`
gives no path: `layer.ID.Hex()` panics. -/
theorem getBaseLayersPath_panics_without_colon :
    GetBaseLayersPath sampleCommon [{ ID := "abc", Type_ := "COPY", Value := "a ." }]
      = .error (.panic "no separator in digest abc") :=
  rfl

/-- Claim C13, amended. `GetBaseLayersPath` on a layer list in which every
non-empty ID holds a `:` (has an encoded part): the result holds, in the order of
the layers, one path for each layer whose ID is not empty, the layer root
directory `DefaultLayerDir` joined with the hex encoding of the ID, the part
after its first `:`; a layer with an empty ID adds nothing, so the length of the
result is the number of layers with a non-empty ID, and the result is empty when
there is none. -/
theorem getBaseLayersPath_spec (common : Common) (layers : List Layer)
    (hwf : ∀ l ∈ layers, l.ID ≠ "" → ':' ∈ l.ID.data) :
    GetBaseLayersPath common layers
        = .ok ((layers.filter (fun l => l.ID != "")).map
            (fun l => Join [common.DefaultLayerDir, hexPart l.ID])) ∧
      (∀ l ∈ layers, l.ID ≠ "" → Hex l.ID = .ok (hexPart l.ID) ∧
        ∃ a b, l.ID.data = a ++ ':' :: b ∧ ':' ∉ a ∧ (hexPart l.ID).data = b) ∧
      ((layers.filter (fun l => l.ID != "")).map
          (fun l => Join [common.DefaultLayerDir, hexPart l.ID])).length
        = layers.countP (fun l => l.ID != "") ∧
      ((∀ l ∈ layers, l.ID = "") → GetBaseLayersPath common layers = .ok []) := by
  have h := getBaseLayersPathLoop_ok common layers hwf []
  simp only [List.nil_append] at h
  refine ⟨h, ?_, ?_, ?_⟩
  · intro l hl hne
    have hc := hwf l hl hne
    refine ⟨by simp [Hex, hc], ?_⟩
    exact hexPart_split l.ID.data hc
  · rw [List.length_map, List.countP_eq_length_filter]
  · intro hall
    have : layers.filter (fun l => l.ID != "") = [] := by
      rw [List.filter_eq_nil_iff]
      intro l hl
      simp [hall l hl]
    rw [GetBaseLayersPath, h, this]
    rfl

theorem getBaseLayersPath_spec_witness :
    (∀ l ∈ sampleLayers, l.ID ≠ "" → ':' ∈ l.ID.data) ∧
      GetBaseLayersPath sampleCommon sampleLayers
        = .ok ["/var/lib/sealer/data/overlay2/ab12"] :=
  ⟨by decide, (getBaseLayersPath_spec sampleCommon sampleLayers (by decide)).1⟩

/-! ## Containment of the copy destination -/

theorem pathElements_eq (l : List Char) :
    pathElements l = l.takeWhile (fun c => !isPathSeparator c) ::
      (match l.dropWhile (fun c => !isPathSeparator c) with
        | [] => []
        | _ :: r => pathElements r) := by
  induction l with
  | nil => rfl
  | cons c t ih =>
    by_cases h : isPathSeparator c = true
    · simp [pathElements, h, List.takeWhile, List.dropWhile]
    · have h1 : isPathSeparator c = false := by simpa using h
      simp only [pathElements, h1, Bool.false_eq_true, if_false, List.takeWhile, List.dropWhile,
        Bool.not_false]
      rw [ih]

theorem dropWhile_notSep_cases (l : List Char) :
    l.dropWhile (fun c => !isPathSeparator c) = [] ∨
      ∃ d r, isPathSeparator d = true ∧ l.dropWhile (fun c => !isPathSeparator c) = d :: r := by
  induction l with
  | nil => exact Or.inl rfl
  | cons c t ih =>
    by_cases h : isPathSeparator c = true
    · exact Or.inr ⟨c, t, h, by simp [List.dropWhile, h]⟩
    · have h1 : isPathSeparator c = false := by simpa using h
      simpa [List.dropWhile, h1] using ih

theorem pathElements_noSep (l : List Char) :
    ∀ e ∈ pathElements l, ∀ x ∈ e, isPathSeparator x = false := by
  induction l with
  | nil => intro e he; simp [pathElements] at he; subst he; simp
  | cons c t ih =>
    intro e he
    by_cases h : isPathSeparator c = true
    · simp only [pathElements, h, if_true, List.mem_cons] at he
      rcases he with rfl | he
      · simp
      · exact ih e he
    · have h1 : isPathSeparator c = false := by simpa using h
      simp only [pathElements, h1, Bool.false_eq_true, if_false] at he
      cases hp : pathElements t with
      | nil =>
        rw [hp] at he
        simp only [List.mem_singleton] at he
        subst he
        intro x hx
        simp only [List.mem_singleton] at hx
        subst hx
        exact h1
      | cons e0 es =>
        rw [hp] at he
        simp only [List.mem_cons] at he
        rcases he with rfl | he
        · intro x hx
          rcases List.mem_cons.mp hx with rfl | hx
          · exact h1
          · exact ih e0 (by rw [hp]; exact List.mem_cons_self _ _) x hx
        · exact ih e (by rw [hp]; exact List.mem_cons_of_mem _ he)

theorem takeWhile_notSep_nil (t : List Char) (h : elemEnd t = true) :
    t.takeWhile (fun c => !isPathSeparator c) = [] ∧
      t.dropWhile (fun c => !isPathSeparator c) = t := by
  cases t with
  | nil => exact ⟨rfl, rfl⟩
  | cons d t =>
    have hd : isPathSeparator d = true := h
    simp [List.takeWhile, List.dropWhile, hd]

theorem elemEnd_of_takeWhile_nil (t : List Char)
    (h : t.takeWhile (fun c => !isPathSeparator c) = []) : elemEnd t = true := by
  cases t with
  | nil => rfl
  | cons d t =>
    by_cases hd : isPathSeparator d = true
    · exact hd
    · have hd1 : isPathSeparator d = false := by simpa using hd
      simp [List.takeWhile, hd1] at h

theorem foldl_pathElements_rest (rooted : Bool) (l : List Char) (st : CleanState) :
    (pathElements (l.dropWhile (fun c => !isPathSeparator c))).foldl (elemAction rooted) st
      = (match l.dropWhile (fun c => !isPathSeparator c) with
          | [] => []
          | _ :: r => pathElements r).foldl (elemAction rooted) st := by
  rcases dropWhile_notSep_cases l with h0 | ⟨d, r, hd, h1⟩
  · rw [h0]
    simp [pathElements, elemAction]
  · rw [h1]
    simp [pathElements, hd, elemAction]

theorem run_eq_elements (rooted : Bool) :
    ∀ (n : Nat) (l : List Char) (st : CleanState), l.length ≤ n →
      run rooted l st = (pathElements l).foldl (elemAction rooted) st := by
  intro n
  induction n with
  | zero =>
    intro l st hn
    have : l = [] := List.length_eq_zero.mp (Nat.le_zero.mp hn)
    subst this
    simp [run_nil, pathElements, elemAction]
  | succ n ih =>
    intro l st hn
    cases l with
    | nil => simp [run_nil, pathElements, elemAction]
    | cons c t =>
      simp only [List.length_cons, Nat.add_le_add_iff_right] at hn
      rw [run_cons]
      by_cases h1 : isPathSeparator c = true
      · simp only [h1, if_true]
        rw [ih t st hn]
        simp [pathElements, h1, elemAction]
      · have hc : isPathSeparator c = false := by simpa using h1
        have hdrop : (c :: t).dropWhile (fun c => !isPathSeparator c)
            = t.dropWhile (fun c => !isPathSeparator c) := by
          simp [List.dropWhile, hc]
        have htw : (c :: t).takeWhile (fun c => !isPathSeparator c)
            = c :: t.takeWhile (fun c => !isPathSeparator c) := by
          simp [List.takeWhile, hc]
        have hdl := length_dropWhile_le (fun c => !isPathSeparator c) t
        have hrhs : ∀ st1 : CleanState,
            run rooted (t.dropWhile (fun c => !isPathSeparator c)) st1
              = (match t.dropWhile (fun c => !isPathSeparator c) with
                  | [] => []
                  | _ :: r => pathElements r).foldl (elemAction rooted) st1 := by
          intro st1
          rw [ih _ st1 (by omega), foldl_pathElements_rest]
        rw [pathElements_eq (c :: t), List.foldl_cons, htw]
        simp only [h1, if_false, hdrop]
        by_cases h2 : (c == '.' && elemEnd t) = true
        · simp only [h2, if_true]
          simp only [Bool.and_eq_true, beq_iff_eq] at h2
          obtain ⟨rfl, he⟩ := h2
          obtain ⟨e1, e2⟩ := takeWhile_notSep_nil t he
          rw [e1, ← hrhs, e2]
          simp [elemAction]
        · simp only [h2, if_false]
          by_cases h3 : (c == '.' && t.head? == some '.' && elemEnd t.tail) = true
          · simp only [h3, if_true]
            simp only [Bool.and_eq_true, beq_iff_eq] at h3
            obtain ⟨⟨rfl, ht1⟩, ht2⟩ := h3
            cases t with
            | nil => simp at ht1
            | cons d t =>
              simp only [List.head?_cons, Option.some.injEq] at ht1
              subst ht1
              simp only [List.tail_cons] at ht2 ⊢
              obtain ⟨e1, e2⟩ := takeWhile_notSep_nil t ht2
              have e3 : ('.' :: t).takeWhile (fun c => !isPathSeparator c) = ['.'] := by
                simp [List.takeWhile, hc, e1]
              have e4 : ('.' :: t).dropWhile (fun c => !isPathSeparator c) = t := by
                simp [List.dropWhile, hc, e2]
              rw [e3, ← hrhs, e4]
              simp [elemAction]
          · simp only [h3, if_false]
            rw [hrhs]
            have hne1 : ¬ (c :: t.takeWhile (fun c => !isPathSeparator c) = ['.']) := by
              intro h
              simp only [List.cons.injEq] at h
              apply h2
              simp [h.1, elemEnd_of_takeWhile_nil t h.2]
            have hne2 : ¬ (c :: t.takeWhile (fun c => !isPathSeparator c) = ['.', '.']) := by
              intro h
              simp only [List.cons.injEq] at h
              obtain ⟨hc1, ht⟩ := h
              apply h3
              cases t with
              | nil => simp [List.takeWhile] at ht
              | cons d t =>
                by_cases hd : isPathSeparator d = true
                · simp [List.takeWhile, hd] at ht
                · have hd1 : isPathSeparator d = false := by simpa using hd
                  simp only [List.takeWhile, hd1, Bool.not_false, List.cons.injEq] at ht
                  simp [hc1, ht.1, elemEnd_of_takeWhile_nil t ht.2]
            simp [elemAction, elemStep, htw, hne1, hne2]

theorem chainOf_append (cs : List (List Char)) (c : List Char) :
    chainOf (cs ++ [c]) = chainOf cs ++ '/' :: c := by
  induction cs with
  | nil => simp [chainOf]
  | cons d cs ih => simp [chainOf, ih]

theorem backtrackTo_ge (out : List Char) (dd : Nat) :
    ∀ w, dd ≤ w → dd ≤ backtrackTo out dd w := by
  intro w
  induction w with
  | zero => intro h; simpa [backtrackTo] using h
  | succ w ih =>
    intro h
    simp only [backtrackTo]
    split
    · rename_i hc
      simp only [Bool.and_eq_true, decide_eq_true_eq] at hc
      exact ih (by omega)
    · exact h

theorem backtrackTo_chain (A comp : List Char) (dd : Nat) (hdd : dd ≤ A.length)
    (hc : ∀ x ∈ comp, isPathSeparator x = false) :
    ∀ k, k ≤ comp.length → backtrackTo (A ++ '/' :: comp) dd (A.length + k) = A.length := by
  intro k
  induction k with
  | zero =>
    intro _
    have hq : (A ++ '/' :: comp)[A.length]? = some '/' := by
      rw [List.getElem?_append_right (Nat.le_refl _)]
      simp
    cases hA : A.length with
    | zero => simp [backtrackTo]
    | succ n =>
      rw [hA] at hq
      simp [backtrackTo, List.getD_eq_getElem?_getD, hq, isPathSeparator]
  | succ k ih =>
    intro hk
    have hlt : k < comp.length := by omega
    have hq : (A ++ '/' :: comp)[A.length + k + 1]? = some (comp.get ⟨k, hlt⟩) := by
      rw [List.getElem?_append_right (by omega)]
      have : A.length + k + 1 - A.length = k + 1 := by omega
      rw [this]
      simp [List.getElem?_eq_getElem hlt]
    have hns : isPathSeparator (comp.get ⟨k, hlt⟩) = false := hc _ (List.get_mem _ _ _)
    have hdd1 : dd < A.length + k + 1 := by omega
    rw [← Nat.add_assoc, backtrackTo]
    simp only [List.getD_eq_getElem?_getD, hq, Option.getD_some, hns, hdd1, decide_True,
      Bool.not_false, Bool.and_self, if_true]
    exact ih (by omega)

theorem elemAction_skip (rooted : Bool) (st : CleanState) (e : List Char)
    (h : e = [] ∨ e = ['.']) : elemAction rooted st e = st := by
  simp [elemAction, h]

theorem elemAction_dotdot (rooted : Bool) (st : CleanState) :
    elemAction rooted st ['.', '.'] = dotdotStep rooted st := by
  simp [elemAction]

theorem elemAction_real (st : CleanState) (e : List Char)
    (h1 : ¬ (e = [] ∨ e = ['.'])) (h2 : e ≠ ['.', '.']) :
    elemAction true st e
      = { st with out := (if st.out.length != 1 then st.out ++ ['/'] else st.out) ++ e } := by
  simp [elemAction, h1, h2]

theorem climbsAbove_skip (d : Nat) (e : List Char) (es : List (List Char))
    (h : e = [] ∨ e = ['.']) : climbsAbove d (e :: es) = climbsAbove d es := by
  simp [climbsAbove, h]

theorem climbsAbove_dotdot_zero (es : List (List Char)) :
    climbsAbove 0 (['.', '.'] :: es) = true := by
  simp [climbsAbove]

theorem climbsAbove_dotdot_succ (d : Nat) (es : List (List Char)) :
    climbsAbove (d + 1) (['.', '.'] :: es) = climbsAbove d es := by
  simp [climbsAbove]

theorem climbsAbove_real (d : Nat) (e : List Char) (es : List (List Char))
    (h1 : ¬ (e = [] ∨ e = ['.'])) (h2 : e ≠ ['.', '.']) :
    climbsAbove d (e :: es) = climbsAbove (d + 1) es := by
  simp [climbsAbove, h1, h2]

theorem foldl_below (R : List Char) (hR : 2 ≤ R.length) :
    ∀ (es rs : List (List Char)) (st : CleanState), st.dotdot = 1 →
      st.out = R ++ chainOf rs.reverse →
      (∀ c ∈ rs, c ≠ [] ∧ ∀ x ∈ c, isPathSeparator x = false) →
      (∀ e ∈ es, ∀ x ∈ e, isPathSeparator x = false) →
      climbsAbove rs.length es = false →
      ∃ rs1 : List (List Char), (es.foldl (elemAction true) st).out = R ++ chainOf rs1.reverse ∧
        ∀ c ∈ rs1, c ≠ [] := by
  intro es
  induction es with
  | nil =>
    intro rs st _ hout hrs _ _
    exact ⟨rs, hout, fun c hc => (hrs c hc).1⟩
  | cons e es ih =>
    intro rs st hdd hout hrs hes hclimb
    have hes1 : ∀ e1 ∈ es, ∀ x ∈ e1, isPathSeparator x = false :=
      fun e1 h1 => hes e1 (List.mem_cons_of_mem _ h1)
    simp only [List.foldl_cons]
    by_cases h1 : e = [] ∨ e = ['.']
    · rw [climbsAbove_skip _ _ _ h1] at hclimb
      rw [elemAction_skip _ _ _ h1]
      exact ih rs st hdd hout hrs hes1 hclimb
    · by_cases h2 : e = ['.', '.']
      · subst h2
        rw [elemAction_dotdot]
        cases rs with
        | nil =>
          rw [List.length_nil, climbsAbove_dotdot_zero] at hclimb
          cases hclimb
        | cons comp rs =>
          rw [List.length_cons, climbsAbove_dotdot_succ] at hclimb
          have hA : st.out = (R ++ chainOf rs.reverse) ++ '/' :: comp := by
            rw [hout, List.reverse_cons, chainOf_append, List.append_assoc]
          have hlen : st.out.length - 1 = (R ++ chainOf rs.reverse).length + comp.length := by
            rw [hA]; simp; omega
          have hcc := (hrs comp (List.mem_cons_self _ _)).2
          have hbt := backtrackTo_chain (R ++ chainOf rs.reverse) comp 1
            (by simp; omega) hcc comp.length (Nat.le_refl _)
          have hlt : st.dotdot < st.out.length := by rw [hdd, hout]; simp; omega
          have hb2 : backtrackTo st.out st.dotdot (st.out.length - 1)
              = (R ++ chainOf rs.reverse).length := by
            rw [hlen, hdd, hA]; exact hbt
          have htake : st.out.take (R ++ chainOf rs.reverse).length = R ++ chainOf rs.reverse := by
            rw [hA]; exact List.take_left _ _
          have hstep : (dotdotStep true st).out = R ++ chainOf rs.reverse := by
            simp only [dotdotStep, hlt, if_true]
            rw [hb2, htake]
          have hstepdd : (dotdotStep true st).dotdot = 1 := by
            rw [dotdotStep_rooted_dotdot]; exact hdd
          exact ih rs _ hstepdd hstep (fun c1 h => hrs c1 (List.mem_cons_of_mem _ h)) hes1 hclimb
      · rw [climbsAbove_real _ _ _ h1 h2] at hclimb
        rw [elemAction_real _ _ h1 h2]
        have hne : e ≠ [] := fun h => h1 (Or.inl h)
        have hl1 : (st.out.length != 1) = true := by
          rw [hout]; simp; omega
        refine ih (e :: rs) _ hdd ?_ ?_ hes1 hclimb
        · simp only [hl1, if_true]
          rw [hout, List.reverse_cons, chainOf_append]
          simp
        · intro c hc
          rcases List.mem_cons.mp hc with rfl | hc
          · exact ⟨hne, hes _ (List.mem_cons_self _ _)⟩
          · exact hrs c hc

theorem foldl_rooted_head :
    ∀ (es : List (List Char)) (st : CleanState), st.dotdot = 1 → st.out.head? = some '/' →
      (es.foldl (elemAction true) st).out.head? = some '/' := by
  intro es
  induction es with
  | nil => intro st _ h; exact h
  | cons e es ih =>
    intro st hdd hh
    simp only [List.foldl_cons]
    obtain ⟨o, hout⟩ : ∃ o, st.out = '/' :: o := by
      cases ho : st.out with
      | nil => rw [ho] at hh; simp at hh
      | cons a o =>
        rw [ho] at hh
        simp only [List.head?_cons, Option.some.injEq] at hh
        exact ⟨o, by rw [hh]⟩
    by_cases h1 : e = [] ∨ e = ['.']
    · rw [elemAction_skip _ _ _ h1]
      exact ih st hdd hh
    · by_cases h2 : e = ['.', '.']
      · subst h2
        rw [elemAction_dotdot]
        apply ih _ (by rw [dotdotStep_rooted_dotdot]; exact hdd)
        by_cases hlt : st.dotdot < st.out.length
        · have hge := backtrackTo_ge st.out st.dotdot (st.out.length - 1) (by omega)
          rw [hdd] at hge
          simp only [dotdotStep, hlt, if_true]
          cases hb : backtrackTo st.out st.dotdot (st.out.length - 1) with
          | zero => rw [hdd] at hb; rw [hb] at hge; omega
          | succ m => rw [hout]; simp
        · simp only [dotdotStep, hlt, if_false, Bool.not_true, Bool.false_eq_true]
          exact hh
      · rw [elemAction_real _ _ h1 h2]
        refine ih _ hdd ?_
        show ((if (st.out.length != 1) = true then st.out ++ ['/'] else st.out) ++ e).head?
          = some '/'
        rw [hout]
        split <;> simp

theorem join_contained (R dst : String) (hR : IsCleanAbs R)
    (hd : R = "/" ∨ climbsAboveStart dst = false) :
    Join [R, dst] = R ∨ ∃ rel, rel ≠ "" ∧ Join [R, dst] = beneath R rel := by
  obtain ⟨t, hRd, -⟩ := cleanAbs_state R hR
  rw [join_under R dst hR, run_eq_elements true dst.data.length dst.data _ (Nat.le_refl _)]
  by_cases hroot : R = "/"
  · subst hroot
    have hh := foldl_rooted_head (pathElements dst.data) { out := ("/" : String).data, dotdot := 1 }
      rfl rfl
    generalize List.foldl (elemAction true) { out := ("/" : String).data, dotdot := 1 }
      (pathElements dst.data) = st at hh
    cases hout : st.out with
    | nil => rw [hout] at hh; simp at hh
    | cons a o =>
      rw [hout] at hh
      simp only [List.head?_cons, Option.some.injEq] at hh
      subst hh
      have hfin : finish st = '/' :: o := by simp [finish, hout]
      rw [hfin]
      cases o with
      | nil => exact Or.inl rfl
      | cons b o =>
        refine Or.inr ⟨String.mk (b :: o), ?_, ?_⟩
        · intro h0
          have := congrArg String.data h0
          simp at this
        · apply String.ext
          simp [beneath, String.data_append]
  · have hclimb : climbsAbove 0 (pathElements dst.data) = false := by
      rcases hd with h | h
      · exact absurd h hroot
      · exact h
    have hlen : 2 ≤ R.data.length := by
      have h1 := cleanAbs_length R hR hroot
      have h2 : R.length = R.data.length := rfl
      rw [hRd] at h2
      rw [hRd]
      simp only [List.length_cons] at h2 ⊢
      omega
    obtain ⟨rs1, hout, hne⟩ := foldl_below R.data hlen (pathElements dst.data) []
      { out := R.data, dotdot := 1 } rfl (by simp [chainOf]) (by simp)
      (pathElements_noSep dst.data) hclimb
    generalize List.foldl (elemAction true) { out := R.data, dotdot := 1 }
      (pathElements dst.data) = st at hout
    have hfin : finish st = st.out := by
      have : st.out.length ≠ 0 := by rw [hout, hRd]; simp
      simp [finish, this]
    rw [hfin, hout]
    cases hrev : rs1.reverse with
    | nil =>
      left
      apply String.ext
      simp [chainOf]
    | cons c1 cs =>
      right
      have hc1 : c1 ≠ [] := by
        apply hne
        rw [← List.mem_reverse, hrev]
        exact List.mem_cons_self _ _
      refine ⟨String.mk (c1 ++ chainOf cs), ?_, ?_⟩
      · intro h0
        have := congrArg String.data h0
        simp only [List.append_eq_nil] at this
        exact hc1 this.1
      · apply String.ext
        simp [chainOf, beneath, hroot, String.data_append]

/-- Claim C12, the claim as stated fails. With the clean absolute root `/a` the
destination `../x` resolves to `/x`, which is neither `/a` nor a path with the
prefix `/a/`; and with the root directory `/` the destination `x` resolves to
`/x`, which is neither `/` nor a path with the prefix `//`, the root followed by
a path separator. -/
theorem paresCopyDestPath_escapes_root :
    (IsCleanAbs "/a" ∧ paresCopyDestPath "../x" "/a" = "/x" ∧
      ¬ (paresCopyDestPath "../x" "/a" = "/a" ∨
        ("/a" ++ "/").data.isPrefixOf (paresCopyDestPath "../x" "/a").data = true)) ∧
    (IsCleanAbs "/" ∧ paresCopyDestPath "x" "/" = "/x" ∧
      ¬ (paresCopyDestPath "x" "/" = "/" ∨
        ("/" ++ "/").data.isPrefixOf (paresCopyDestPath "x" "/").data = true)) := by
  decide

/-- Claim C12, amended. For every clean absolute target root `R` and every
destination whose `..` elements never climb above `R` (each `..` has an earlier
element of the destination, not yet cancelled, to remove; below the root
directory `/` a `..` removes nothing, so every destination counts),
`paresCopyDestPath` gives `R` itself or a path beneath `R`: for `R` other than
the root directory a path with `R` followed by a path separator as a prefix and
a non-empty relative path after it, for the root directory the slash followed by
a non-empty relative path. Repeated slashes, `.` elements and `..` elements that
stay below `R` are allowed. -/
theorem paresCopyDestPath_contained (R dst : String) (hR : IsCleanAbs R)
    (hd : R = "/" ∨ climbsAboveStart dst = false) :
    (paresCopyDestPath dst R = R ∨
      ∃ rel, rel ≠ "" ∧ paresCopyDestPath dst R = beneath R rel) ∧
    (R ≠ "/" → paresCopyDestPath dst R = R ∨
      (R ++ "/").data.isPrefixOf (paresCopyDestPath dst R).data = true) := by
  have hmain : paresCopyDestPath dst R = R ∨
      ∃ rel, rel ≠ "" ∧ paresCopyDestPath dst R = beneath R rel := by
    unfold paresCopyDestPath
    simp only
    split
    · exact Or.inl rfl
    · exact join_contained R dst hR hd
  refine ⟨hmain, ?_⟩
  intro hroot
  rcases hmain with h | ⟨rel, -, h⟩
  · exact Or.inl h
  · right
    rw [h, List.isPrefixOf_iff_prefix]
    simp only [beneath, hroot, if_false, String.data_append]
    exact ⟨rel.data, rfl⟩

theorem paresCopyDestPath_contained_witness :
    IsCleanAbs "/r" ∧ ("/r" = "/" ∨ climbsAboveStart "a/../b//./c/.." = false) ∧
      paresCopyDestPath "a/../b//./c/.." "/r" = "/r/b" ∧
      ((paresCopyDestPath "a/../b//./c/.." "/r" = "/r" ∨
        ∃ rel, rel ≠ "" ∧ paresCopyDestPath "a/../b//./c/.." "/r" = beneath "/r" rel) ∧
      ("/r" ≠ "/" → paresCopyDestPath "a/../b//./c/.." "/r" = "/r" ∨
        ("/r" ++ "/").data.isPrefixOf (paresCopyDestPath "a/../b//./c/.." "/r").data = true)) :=
  ⟨by decide, by decide, by decide,
    paresCopyDestPath_contained "/r" "a/../b//./c/.." (by decide) (by decide)⟩

/-! ## `ParseCopyLayerContent` -/

theorem fieldsLoop_spaces (ws rest : List Char) (h : ∀ c ∈ ws, isSpace c = true) :
    fieldsLoop (ws ++ rest) none = fieldsLoop rest none := by
  induction ws with
  | nil => rfl
  | cons c ws ih =>
    have hc : isSpace c = true := h c (List.mem_cons_self _ _)
    simp only [List.cons_append, fieldsLoop, hc, if_true]
    exact ih (fun d hd => h d (List.mem_cons_of_mem _ hd))

theorem fieldsLoop_word (rest : List Char) :
    ∀ (f : List Char) (cur : Option (List Char)), f ≠ [] → (∀ c ∈ f, isSpace c = false) →
      fieldsLoop (f ++ rest) cur = fieldsLoop rest (some (cur.getD [] ++ f)) := by
  intro f
  induction f with
  | nil => intro cur h; exact absurd rfl h
  | cons c f ih =>
    intro cur _ h
    have hc : isSpace c = false := h c (List.mem_cons_self _ _)
    simp only [List.cons_append, fieldsLoop, hc, Bool.false_eq_true, if_false]
    cases f with
    | nil => rfl
    | cons d f =>
      show fieldsLoop ((d :: f) ++ rest) (some (cur.getD [] ++ [c])) = _
      rw [ih (some (cur.getD [] ++ [c])) (by simp) (fun e he => h e (List.mem_cons_of_mem _ he))]
      simp

theorem fieldsLoop_end (f tail : List Char) (h : ∀ c, tail.head? = some c → isSpace c = true) :
    ∃ more, fieldsLoop tail (some f) = f :: more := by
  cases tail with
  | nil => exact ⟨[], rfl⟩
  | cons c r =>
    have hc : isSpace c = true := h c rfl
    exact ⟨fieldsLoop r none, by simp [fieldsLoop, hc]⟩

theorem fieldsLoop_two (ws0 f0 ws1 f1 tail : List Char)
    (h0 : ∀ c ∈ ws0, isSpace c = true) (hf0 : f0 ≠ []) (hn0 : ∀ c ∈ f0, isSpace c = false)
    (hw1 : ws1 ≠ []) (h1 : ∀ c ∈ ws1, isSpace c = true)
    (hf1 : f1 ≠ []) (hn1 : ∀ c ∈ f1, isSpace c = false)
    (ht : ∀ c, tail.head? = some c → isSpace c = true) :
    ∃ more, fieldsLoop (ws0 ++ f0 ++ ws1 ++ f1 ++ tail) none = f0 :: f1 :: more := by
  obtain ⟨more, hmore⟩ := fieldsLoop_end f1 tail ht
  refine ⟨more, ?_⟩
  cases ws1 with
  | nil => exact absurd rfl hw1
  | cons s ws1 =>
    have hs : isSpace s = true := h1 s (List.mem_cons_self _ _)
    have h1' : ∀ c ∈ ws1, isSpace c = true := fun c hc => h1 c (List.mem_cons_of_mem _ hc)
    have e : ws0 ++ f0 ++ s :: ws1 ++ f1 ++ tail = ws0 ++ (f0 ++ (s :: (ws1 ++ (f1 ++ tail)))) := by
      simp
    rw [e, fieldsLoop_spaces ws0 _ h0, fieldsLoop_word _ f0 none hf0 hn0]
    simp only [Option.getD_none, List.nil_append, fieldsLoop, hs, if_true]
    rw [fieldsLoop_spaces ws1 _ h1', fieldsLoop_word _ f1 none hf1 hn1]
    simp only [Option.getD_none, List.nil_append]
    rw [hmore]

theorem fieldsLoop_fewer (ws0 f0 ws1 : List Char)
    (h0 : ∀ c ∈ ws0, isSpace c = true) (hn0 : ∀ c ∈ f0, isSpace c = false)
    (h1 : ∀ c ∈ ws1, isSpace c = true) :
    (fieldsLoop (ws0 ++ f0 ++ ws1) none).length < 2 := by
  have e : ws0 ++ f0 ++ ws1 = ws0 ++ (f0 ++ ws1) := by simp
  have hnil : fieldsLoop ws1 none = [] := by
    have := fieldsLoop_spaces ws1 [] h1
    simpa [fieldsLoop] using this
  rw [e, fieldsLoop_spaces ws0 _ h0]
  by_cases hf : f0 = []
  · subst hf
    simp [hnil]
  · rw [fieldsLoop_word _ f0 none hf hn0]
    cases ws1 with
    | nil => simp [fieldsLoop]
    | cons s ws1 =>
      have hs : isSpace s = true := h1 s (List.mem_cons_self _ _)
      have hnil1 : fieldsLoop ws1 none = [] := by
        have := fieldsLoop_spaces ws1 [] (fun c hc => h1 c (List.mem_cons_of_mem _ hc))
        simpa [fieldsLoop] using this
      simp [fieldsLoop, hs, hnil1]

theorem trimPrefix_dotSlash (s : String) :
    (s.data = '.' :: '/' :: (TrimPrefix s "./").data) ∨
      ((¬ ∃ r, s.data = '.' :: '/' :: r) ∧ (TrimPrefix s "./").data = s.data) := by
  unfold TrimPrefix
  rcases hs : s.data with _ | ⟨a, _ | ⟨b, r⟩⟩
  · right; simp [hs, List.isPrefixOf]
  · right; simp [hs, List.isPrefixOf]
  · by_cases h : a = '.' ∧ b = '/'
    · obtain ⟨rfl, rfl⟩ := h
      left
      have : ("./" : String).data = ['.', '/'] := rfl
      simp [hs, this, List.isPrefixOf]
    · right
      have : ("./" : String).data = ['.', '/'] := rfl
      have h2 : ¬ (a = '.' ∧ b = '/') := h
      refine ⟨?_, ?_⟩
      · rintro ⟨r1, hr1⟩
        simp only [List.cons.injEq] at hr1
        exact h ⟨hr1.1, hr1.2.1⟩
      · have h3 : ¬ ('.' = a ∧ '/' = b) := fun h3 => h ⟨h3.1.symm, h3.2.symm⟩
        simp [hs, this, List.isPrefixOf, h3]

theorem trimPrefix_slash (s : String) :
    (s.data = '/' :: (TrimPrefix s "/").data) ∨
      ((¬ ∃ r, s.data = '/' :: r) ∧ (TrimPrefix s "/").data = s.data) := by
  unfold TrimPrefix
  have : ("/" : String).data = ['/'] := rfl
  rcases hs : s.data with _ | ⟨a, r⟩
  · right; simp [hs, List.isPrefixOf]
  · by_cases ha : a = '/'
    · subst ha
      left
      simp [hs, this, List.isPrefixOf]
    · right
      refine ⟨?_, ?_⟩
      · rintro ⟨r1, hr1⟩
        simp only [List.cons.injEq] at hr1
        exact ha hr1.1
      · have ha1 : ¬ '/' = a := fun h1 => ha h1.symm
        simp [hs, this, List.isPrefixOf, ha1]

theorem trimSuffix_slash (s : String) :
    (s.data = (TrimSuffix s "/").data ++ ['/']) ∨
      ((¬ ∃ r, s.data = r ++ ['/']) ∧ (TrimSuffix s "/").data = s.data) := by
  unfold TrimSuffix
  have : ("/" : String).data = ['/'] := rfl
  rcases List.eq_nil_or_concat s.data with hs | ⟨t, c, hs⟩
  case inr =>
    rw [List.concat_eq_append] at hs
    by_cases hc : c = '/'
    · subst hc
      left
      simp [hs, this, List.isSuffixOf, List.isPrefixOf]
    · right
      have hc1 : ¬ '/' = c := fun h1 => hc h1.symm
      refine ⟨?_, ?_⟩
      · rintro ⟨r, hr⟩
        rw [hs] at hr
        have := List.append_inj' hr rfl
        simp only [List.cons.injEq, and_true] at this
        exact hc this.2
      · simp [hs, this, List.isSuffixOf, List.isPrefixOf, hc1]
  · right
    refine ⟨?_, ?_⟩
    · rintro ⟨r, hr⟩
      rw [hs] at hr
      simp at hr
    · simp [hs, this, List.isSuffixOf, List.isPrefixOf]

theorem trimmedDst_trim (f1 : String) :
    TrimmedDst f1.data (TrimSuffix (TrimPrefix (TrimPrefix f1 "./") "/") "/").data :=
  ⟨(TrimPrefix f1 "./").data, (TrimPrefix (TrimPrefix f1 "./") "/").data,
    trimPrefix_dotSlash f1, trimPrefix_slash _, trimSuffix_slash _⟩

/-- Claim C14. `ParseCopyLayerContent`: when the layer value has the fields
`f0` and `f1` as its first two white-space separated fields, the result is
`src = f0` and `dst`, which is `f1` with at most one leading `./`, then at most
one leading `/`, then at most one trailing `/` removed, whatever fields follow;
this is the case of every value made of white space, a field, white space, a
second field and either nothing or white space and anything after it; `f1 = "./"`
and `f1 = "/"` both give `dst = ""`, and only one leading `./`, one leading `/`
and one trailing `/` go; a layer value with fewer than two fields, which is the
case of every value made of white space around at most one field, ends in an
index out of range panic with no result. -/
theorem parseCopyLayerContent_spec (layerValue : String) :
    (∀ f0 f1 more, Fields layerValue = f0 :: f1 :: more →
      ∃ dst, ParseCopyLayerContent layerValue = .ok (f0, dst) ∧ TrimmedDst f1.data dst.data) ∧
    (∀ ws0 f0 ws1 f1 tail : List Char, layerValue.data = ws0 ++ f0 ++ ws1 ++ f1 ++ tail →
      (∀ c ∈ ws0, isSpace c = true) → f0 ≠ [] → (∀ c ∈ f0, isSpace c = false) →
      ws1 ≠ [] → (∀ c ∈ ws1, isSpace c = true) →
      f1 ≠ [] → (∀ c ∈ f1, isSpace c = false) →
      (∀ c, tail.head? = some c → isSpace c = true) →
      ∃ dst, ParseCopyLayerContent layerValue = .ok (String.mk f0, dst) ∧
        TrimmedDst f1 dst.data) ∧
    ParseCopyLayerContent "a ./" = .ok ("a", "") ∧
    ParseCopyLayerContent "a /" = .ok ("a", "") ∧
    ParseCopyLayerContent "a.txt ./manifest/" = .ok ("a.txt", "manifest") ∧
    ParseCopyLayerContent "a /tmp//" = .ok ("a", "tmp/") ∧
    ParseCopyLayerContent "a ././x" = .ok ("a", "./x") ∧
    ParseCopyLayerContent "a .//x/" = .ok ("a", "x") ∧
    ParseCopyLayerContent "a //x" = .ok ("a", "/x") ∧
    ParseCopyLayerContent "  a\tcharts/test  more fields" = .ok ("a", "charts/test") ∧
    ((Fields layerValue).length < 2 →
      ∃ msg, ParseCopyLayerContent layerValue = .error (.panic msg)) ∧
    (∀ ws0 f0 ws1 : List Char, layerValue.data = ws0 ++ f0 ++ ws1 →
      (∀ c ∈ ws0, isSpace c = true) → (∀ c ∈ f0, isSpace c = false) →
      (∀ c ∈ ws1, isSpace c = true) →
      ∃ msg, ParseCopyLayerContent layerValue = .error (.panic msg)) := by
  have hA : ∀ f0 f1 more, Fields layerValue = f0 :: f1 :: more →
      ∃ dst, ParseCopyLayerContent layerValue = .ok (f0, dst) ∧
        TrimmedDst f1.data dst.data := by
    intro f0 f1 more h
    refine ⟨TrimSuffix (TrimPrefix (TrimPrefix f1 "./") "/") "/", ?_, trimmedDst_trim f1⟩
    simp [ParseCopyLayerContent, h, List.foldl]
  have hB : (Fields layerValue).length < 2 →
      ∃ msg, ParseCopyLayerContent layerValue = .error (.panic msg) := by
    intro h
    unfold ParseCopyLayerContent
    cases hF : Fields layerValue with
    | nil => exact ⟨_, rfl⟩
    | cons a l =>
      cases l with
      | nil => exact ⟨_, rfl⟩
      | cons b l =>
        exfalso
        rw [hF] at h
        simp only [List.length_cons] at h
        omega
  refine ⟨hA, ?_, rfl, rfl, rfl, rfl, rfl, rfl, rfl, rfl, hB, ?_⟩
  · intro ws0 f0 ws1 f1 tail hv h0 hf0 hn0 hw1 h1 hf1 hn1 ht
    obtain ⟨more, hmore⟩ := fieldsLoop_two ws0 f0 ws1 f1 tail h0 hf0 hn0 hw1 h1 hf1 hn1 ht
    apply hA (String.mk f0) (String.mk f1) (more.map String.mk)
    rw [Fields, hv, hmore]
    rfl
  · intro ws0 f0 ws1 hv h0 hn0 h1
    apply hB
    have := fieldsLoop_fewer ws0 f0 ws1 h0 hn0 h1
    rw [Fields, hv, List.length_map]
    exact this

end Sealer
